import Mathlib

/-!
Shallow embedding of the gsorm query builder (gsorm.go) and proofs about it.

Go values passed as `interface{}` are modelled by the inductive type `GoVal`;
Go `time.Time` is modelled by `GoTime` together with the fixed layout
`"2006-01-02 15:04:05"` used by `PrintSQL`.  Strings are Lean `String`s,
Go `int` is `Int`, Go slices in the pure model are Lean lists (a separate
heap-based model of slices is introduced later for the `Clone` aliasing
claim).  `strings.Join(xs, sep)` is `String.intercalate sep xs`.  A Go
`[]interface{}` argument (as passed to `WhereIn`) is modelled as a list of
scalar values `GoScalar`.
-/

/-- Go `time.Time`, reduced to the calendar fields that the fixed layout
`"2006-01-02 15:04:05"` reads. -/
structure GoTime where
  year : Nat
  month : Nat
  day : Nat
  hour : Nat
  minute : Nat
  second : Nat
deriving DecidableEq, Repr

/-- A scalar Go `interface{}` value (element of a `[]interface{}` list). -/
inductive GoScalar where
  | sint : Int → GoScalar
  | sstr : String → GoScalar
  | stime : GoTime → GoScalar
  | snil : GoScalar
deriving DecidableEq, Repr

/-- A Go `interface{}` value as it can appear in builder arguments:
ints, strings, times, `nil`, and `[]interface{}` (used by `WhereIn`). -/
inductive GoVal where
  | vint : Int → GoVal
  | vstr : String → GoVal
  | vtime : GoTime → GoVal
  | vnil : GoVal
  | vlist : List GoScalar → GoVal
deriving DecidableEq, Repr

/-- The embedding of a scalar into `interface{}` position. -/
def GoScalar.toVal : GoScalar → GoVal
  | .sint n => .vint n
  | .sstr s => .vstr s
  | .stime t => .vtime t
  | .snil => .vnil

/-- gsorm.go `WhereCondition`: column, operator, value and logic connective. -/
structure WhereCondition where
  column : String
  operator : String
  value : GoVal
  logic : String
deriving DecidableEq, Repr

/-- gsorm.go `JoinCondition`. -/
structure JoinCondition where
  type : String
  table : String
  condition : String
deriving DecidableEq, Repr

/-- gsorm.go `OrderCondition`. -/
structure OrderCondition where
  column : String
  dir : String
deriving DecidableEq, Repr

/-- The pure projection of gsorm.go `Builder`: all query-shaping state.
The `db` handle is an opaque `Nat`, the transaction an `Option Nat`. -/
structure Builder where
  db : Nat
  table : String
  selectCols : List String
  whereConds : List WhereCondition
  joins : List JoinCondition
  orderBy : List OrderCondition
  groupBy : List String
  having : List WhereCondition
  limitVal : Int
  offsetVal : Int
  tx : Option Nat
deriving DecidableEq, Repr

/-- The substring test of Go `strings.Contains`, over character lists. -/
def listHasSub (needle : List Char) : List Char → Bool
  | [] => needle.isEmpty
  | c :: rest => needle.isPrefixOf (c :: rest) || listHasSub needle rest

/-- Go `strings.Contains (s, sub)`. -/
def strContains (s sub : String) : Bool := listHasSub sub.data s.data

/-- One step of the loop inside gsorm.go `buildWhereClause`: `first` is true
exactly when `i = 0` in the Go loop. -/
def buildWhereAux : Bool → String → List GoVal → List WhereCondition → String × List GoVal
  | _, clause, args, [] => (clause, args)
  | first, clause, args, cond :: rest =>
    let clause := if first then clause else clause ++ " " ++ cond.logic ++ " "
    let clause := clause ++ cond.column ++ " " ++ cond.operator
    if cond.operator == "IS NULL" || cond.operator == "IS NOT NULL" then
      buildWhereAux false clause args rest
    else if strContains cond.operator "IN" then
      match cond.value with
      | .vlist values => buildWhereAux false clause (args ++ values.map GoScalar.toVal) rest
      | _ => buildWhereAux false clause args rest
    else
      buildWhereAux false (clause ++ " ?") (args ++ [cond.value]) rest

/-- gsorm.go `buildWhereClause`: serializes predicates into clause text plus
positional arguments; empty input gives `("", [])` (Go: `"", nil`). -/
def buildWhereClause (conditions : List WhereCondition) : String × List GoVal :=
  if conditions.length = 0 then ("", [])
  else buildWhereAux true "" [] conditions

/-- gsorm.go `buildSelectQuery`: composes the SELECT statement and its
argument list in the fixed clause order of the source. -/
def buildSelectQuery (b : Builder) : String × List GoVal :=
  let query := "SELECT " ++ String.intercalate ", " b.selectCols ++ " FROM " ++ b.table
  let query := b.joins.foldl
    (fun q j => q ++ " " ++ j.type ++ " JOIN " ++ j.table ++ " ON " ++ j.condition) query
  let args : List GoVal := []
  let qa :=
    if b.whereConds.length > 0 then
      let wr := buildWhereClause b.whereConds
      (query ++ " WHERE " ++ wr.1, args ++ wr.2)
    else (query, args)
  let qa :=
    if b.groupBy.length > 0 then
      (qa.1 ++ " GROUP BY " ++ String.intercalate ", " b.groupBy, qa.2)
    else qa
  let qa :=
    if b.having.length > 0 then
      let hr := buildWhereClause b.having
      (qa.1 ++ " HAVING " ++ hr.1, qa.2 ++ hr.2)
    else qa
  let qa :=
    if b.orderBy.length > 0 then
      (qa.1 ++ " ORDER BY " ++
        String.intercalate ", " (b.orderBy.map fun o => o.column ++ " " ++ o.dir), qa.2)
    else qa
  let qa :=
    if b.limitVal > 0 then (qa.1 ++ " LIMIT ?", qa.2 ++ [GoVal.vint b.limitVal]) else qa
  let qa :=
    if b.offsetVal > 0 then (qa.1 ++ " OFFSET ?", qa.2 ++ [GoVal.vint b.offsetVal]) else qa
  qa

/-! Clause fragments for stating the clause-order decomposition of
`buildSelectQuery` (each is omitted, i.e. empty, exactly when its
configuration is empty). -/

def selectFrag (b : Builder) : String :=
  "SELECT " ++ String.intercalate ", " b.selectCols ++ " FROM " ++ b.table

def joinFragOf (j : JoinCondition) : String :=
  " " ++ j.type ++ " JOIN " ++ j.table ++ " ON " ++ j.condition

def joinsFrag (b : Builder) : String := String.join (b.joins.map joinFragOf)

def whereFrag (b : Builder) : String :=
  if b.whereConds = [] then "" else " WHERE " ++ (buildWhereClause b.whereConds).1

def whereArgsOf (b : Builder) : List GoVal :=
  if b.whereConds = [] then [] else (buildWhereClause b.whereConds).2

def groupFrag (b : Builder) : String :=
  if b.groupBy = [] then "" else " GROUP BY " ++ String.intercalate ", " b.groupBy

def havingFrag (b : Builder) : String :=
  if b.having = [] then "" else " HAVING " ++ (buildWhereClause b.having).1

def havingArgsOf (b : Builder) : List GoVal :=
  if b.having = [] then [] else (buildWhereClause b.having).2

def orderFrag (b : Builder) : String :=
  if b.orderBy = [] then ""
  else " ORDER BY " ++ String.intercalate ", " (b.orderBy.map fun o => o.column ++ " " ++ o.dir)

def limitFrag (b : Builder) : String := if b.limitVal > 0 then " LIMIT ?" else ""

def limitArgsOf (b : Builder) : List GoVal :=
  if b.limitVal > 0 then [GoVal.vint b.limitVal] else []

def offsetFrag (b : Builder) : String := if b.offsetVal > 0 then " OFFSET ?" else ""

def offsetArgsOf (b : Builder) : List GoVal :=
  if b.offsetVal > 0 then [GoVal.vint b.offsetVal] else []

theorem string_append_ne_empty (p x : String) (hp : p.length ≠ 0) : p ++ x ≠ "" := by
  intro h
  have hl := congrArg String.length h
  rw [String.length_append] at hl
  have hz : ("" : String).length = 0 := rfl
  omega

theorem string_join_cons (s : String) (L : List String) :
    String.join (s :: L) = s ++ String.join L := by
  have key : ∀ (M : List String) (a b : String),
      M.foldl (fun r t => r ++ t) (a ++ b) = a ++ M.foldl (fun r t => r ++ t) b := by
    intro M
    induction M with
    | nil => intro a b; rfl
    | cons m ms ih =>
      intro a b
      simp only [List.foldl_cons, String.append_assoc]
      exact ih a (b ++ m)
  simpa [String.join] using key L s ""

theorem joins_foldl_eq (js : List JoinCondition) (q : String) :
    js.foldl (fun q j => q ++ " " ++ j.type ++ " JOIN " ++ j.table ++ " ON " ++ j.condition) q
      = q ++ String.join (js.map joinFragOf) := by
  induction js generalizing q with
  | nil => simp [String.join]
  | cons j rest ih =>
    simp only [List.foldl_cons, List.map_cons, string_join_cons]
    rw [ih]
    simp [joinFragOf, String.append_assoc]

/-- A builder for the worked example of claim C2:
table "t", projection ["a","b"], one predicate x > 5, order a ASC, limit 10. -/
def exBuilderC2 : Builder :=
  { db := 0, table := "t", selectCols := ["a", "b"],
    whereConds := [{ column := "x", operator := ">", value := .vint 5, logic := "AND" }],
    joins := [], orderBy := [{ column := "a", dir := "ASC" }], groupBy := [], having := [],
    limitVal := 10, offsetVal := 0, tx := none }

/-- The clause-order decomposition of `buildSelectQuery`, shared by several
claims below. -/
theorem buildSelectQuery_decomp (b : Builder) :
    buildSelectQuery b =
      (selectFrag b ++ joinsFrag b ++ whereFrag b ++ groupFrag b ++ havingFrag b ++
         orderFrag b ++ limitFrag b ++ offsetFrag b,
       whereArgsOf b ++ havingArgsOf b ++ limitArgsOf b ++ offsetArgsOf b) := by
  simp only [buildSelectQuery, selectFrag, joinsFrag, whereFrag, whereArgsOf, groupFrag,
    havingFrag, havingArgsOf, orderFrag, limitFrag, limitArgsOf, offsetFrag, offsetArgsOf,
    joins_foldl_eq]
  rcases hw : b.whereConds with _ | ⟨c, cs⟩ <;>
  rcases hg : b.groupBy with _ | ⟨g, gs⟩ <;>
  rcases hh : b.having with _ | ⟨h, hs⟩ <;>
  rcases ho : b.orderBy with _ | ⟨o, os⟩ <;>
  by_cases hl : b.limitVal > 0 <;>
  by_cases hoff : b.offsetVal > 0 <;>
  simp [hw, hg, hh, ho, hl, hoff, String.append_assoc, List.append_assoc]

/-- Claim C2: the composed SELECT emits clauses in the fixed order
SELECT, FROM, JOINs (insertion order), WHERE, GROUP BY, HAVING, ORDER BY,
LIMIT ?, OFFSET ?, each optional clause omitted exactly when its
configuration is empty (LIMIT/OFFSET omitted when the value is ≤ 0), and
the argument list is WHERE args, then HAVING args, then the limit value,
then the offset value.  For the concrete worked example the result is
exactly `SELECT a, b FROM t WHERE x > ? ORDER BY a ASC LIMIT ?` with
arguments `[5, 10]`. -/
theorem C2_select_clause_order (b : Builder) :
    buildSelectQuery b =
      (selectFrag b ++ joinsFrag b ++ whereFrag b ++ groupFrag b ++ havingFrag b ++
         orderFrag b ++ limitFrag b ++ offsetFrag b,
       whereArgsOf b ++ havingArgsOf b ++ limitArgsOf b ++ offsetArgsOf b) ∧
    (whereFrag b = "" ↔ b.whereConds = []) ∧
    (groupFrag b = "" ↔ b.groupBy = []) ∧
    (orderFrag b = "" ↔ b.orderBy = []) ∧
    (limitFrag b = "" ↔ b.limitVal ≤ 0) ∧
    (offsetFrag b = "" ↔ b.offsetVal ≤ 0) ∧
    buildSelectQuery exBuilderC2 =
      ("SELECT a, b FROM t WHERE x > ? ORDER BY a ASC LIMIT ?",
       [GoVal.vint 5, GoVal.vint 10]) := by
  refine ⟨buildSelectQuery_decomp b, ?_, ?_, ?_, ?_, ?_, by decide⟩
  · constructor
    · intro hemp
      by_contra hne
      simp only [whereFrag, if_neg hne] at hemp
      exact string_append_ne_empty _ _ (by decide) hemp
    · intro h; simp [whereFrag, h]
  · constructor
    · intro hemp
      by_contra hne
      simp only [groupFrag, if_neg hne] at hemp
      exact string_append_ne_empty _ _ (by decide) hemp
    · intro h; simp [groupFrag, h]
  · constructor
    · intro hemp
      by_contra hne
      simp only [orderFrag, if_neg hne] at hemp
      exact string_append_ne_empty _ _ (by decide) hemp
    · intro h; simp [orderFrag, h]
  · constructor
    · intro hemp
      by_contra hpos
      push_neg at hpos
      simp only [limitFrag, if_pos hpos] at hemp
      exact absurd hemp (by decide)
    · intro h
      have hneg : ¬ b.limitVal > 0 := by omega
      simp [limitFrag, hneg]
  · constructor
    · intro hemp
      by_contra hpos
      push_neg at hpos
      simp only [offsetFrag, if_pos hpos] at hemp
      exact absurd hemp (by decide)
    · intro h
      have hneg : ¬ b.offsetVal > 0 := by omega
      simp [offsetFrag, hneg]

/-! Claim C1: predicates built through the public API, and the alignment of
`?` placeholders with the returned argument list. -/

/-- Number of `?` placeholder characters in a string. -/
def countQ (s : String) : Nat := s.data.count '?'

/-- One call to a predicate-building method of the public API
(`Where`, `OrWhere`, `WhereIn`, `WhereNull`, `WhereNotNull`). -/
inductive ApiCall where
  | whereC (column operator : String) (value : GoVal)
  | orWhere (column operator : String) (value : GoVal)
  | whereIn (column : String) (values : List GoScalar)
  | whereNull (column : String)
  | whereNotNull (column : String)
deriving DecidableEq, Repr

/-- The effect of one API call on the predicate list, as in gsorm.go
(`Where` appends with logic AND, `OrWhere` with OR, `WhereIn` appends an
`IN (?,...,?)` operator built with `strings.Join(placeholders, ",")` and
only when the value list is non-empty, `WhereNull`/`WhereNotNull` append
unary null-check operators with a nil value). -/
def applyApi (conds : List WhereCondition) : ApiCall → List WhereCondition
  | .whereC col op v => conds ++ [⟨col, op, v, "AND"⟩]
  | .orWhere col op v => conds ++ [⟨col, op, v, "OR"⟩]
  | .whereIn col vs =>
    if vs.length > 0 then
      conds ++ [⟨col, "IN (" ++ String.intercalate "," (vs.map fun _ => "?") ++ ")",
                 .vlist vs, "AND"⟩]
    else conds
  | .whereNull col => conds ++ [⟨col, "IS NULL", .vnil, "AND"⟩]
  | .whereNotNull col => conds ++ [⟨col, "IS NOT NULL", .vnil, "AND"⟩]

/-- The predicate list built by a sequence of API calls, starting empty. -/
def applyApiCalls (calls : List ApiCall) : List WhereCondition :=
  calls.foldl applyApi []

/-- The arguments contributed by one predicate in `buildWhereClause`
(same case analysis as the loop body in gsorm.go). -/
def condArgs (c : WhereCondition) : List GoVal :=
  if c.operator == "IS NULL" || c.operator == "IS NOT NULL" then []
  else if strContains c.operator "IN" then
    match c.value with
    | .vlist vs => vs.map GoScalar.toVal
    | _ => []
  else [c.value]

/-- The clause text contributed by one predicate (without the logic
separator). -/
def condFrag (c : WhereCondition) : String :=
  c.column ++ " " ++ c.operator ++
    (if c.operator == "IS NULL" || c.operator == "IS NOT NULL" then ""
     else if strContains c.operator "IN" then "" else " ?")

/-- The serialized clause as the left-to-right concatenation of per-predicate
fragments separated by each predicate's logic connective. -/
def clauseOf : List WhereCondition → String
  | [] => ""
  | c :: rest =>
    rest.foldl (fun acc d => acc ++ " " ++ d.logic ++ " " ++ condFrag d) (condFrag c)

/-- The per-predicate argument lists, concatenated left to right. -/
def argsJoin (conds : List WhereCondition) : List GoVal := (conds.map condArgs).flatten

theorem countQ_append (a b : String) : countQ (a ++ b) = countQ a + countQ b := by
  simp [countQ, String.data_append, List.count_append]

theorem buildWhereAux_spec (conds : List WhereCondition) (clause : String)
    (args : List GoVal) :
    buildWhereAux false clause args conds =
      (conds.foldl (fun acc d => acc ++ " " ++ d.logic ++ " " ++ condFrag d) clause,
       args ++ argsJoin conds) := by
  induction conds generalizing clause args with
  | nil => simp [buildWhereAux, argsJoin]
  | cons c rest ih =>
    by_cases h1 : (c.operator == "IS NULL" || c.operator == "IS NOT NULL") = true
    · simp only [buildWhereAux, h1, if_true, ih, argsJoin, List.map_cons, List.flatten,
        List.foldl_cons, condFrag, condArgs, h1]
      simp [String.append_assoc, List.append_assoc]
    · rcases h2 : strContains c.operator "IN" with _ | _
      · simp only [buildWhereAux, h1, if_false, Bool.false_eq_true, h2, ih, argsJoin,
          List.map_cons, List.flatten, List.foldl_cons, condFrag, condArgs]
        simp [h1, h2, String.append_assoc, List.append_assoc]
      · rcases hv : c.value with n | s | t | _ | vs <;>
        · simp only [buildWhereAux, h1, h2, hv, if_false, Bool.false_eq_true, ih, argsJoin,
            List.map_cons, List.flatten, List.foldl_cons, condFrag, condArgs]
          simp [h1, h2, hv, String.append_assoc, List.append_assoc]

theorem buildWhereClause_eq (conds : List WhereCondition) :
    buildWhereClause conds = (clauseOf conds, argsJoin conds) := by
  rcases conds with _ | ⟨c, rest⟩
  · rfl
  · show buildWhereAux true "" [] (c :: rest) = _
    by_cases h1 : (c.operator == "IS NULL" || c.operator == "IS NOT NULL") = true
    · simp only [buildWhereAux, h1, if_true, buildWhereAux_spec, clauseOf, argsJoin,
        List.map_cons, List.flatten, condFrag, condArgs]
      simp [h1, argsJoin]
    · rcases h2 : strContains c.operator "IN" with _ | _
      · simp only [buildWhereAux, h1, if_false, Bool.false_eq_true, h2, buildWhereAux_spec,
          clauseOf, argsJoin, List.map_cons, List.flatten, condFrag, condArgs]
        simp [h1, h2, argsJoin]
      · rcases hv : c.value with n | s | t | _ | vs <;>
        · simp only [buildWhereAux, h1, h2, hv, if_false, Bool.false_eq_true,
            buildWhereAux_spec, clauseOf, argsJoin, List.map_cons, List.flatten, condFrag,
            condArgs]
          simp [h1, h2, hv, argsJoin]

/-- The well-formedness of one predicate for placeholder counting: its
fragment has exactly as many `?` as it contributes arguments, and its logic
connective is placeholder-free. -/
def condGood (c : WhereCondition) : Prop :=
  countQ (condFrag c) = (condArgs c).length ∧ countQ c.logic = 0

theorem countQ_clause_foldl (rest : List WhereCondition) (acc : String)
    (h : ∀ d ∈ rest, condGood d) :
    countQ (rest.foldl (fun acc d => acc ++ " " ++ d.logic ++ " " ++ condFrag d) acc)
      = countQ acc + (argsJoin rest).length := by
  induction rest generalizing acc with
  | nil => simp [argsJoin]
  | cons d ds ih =>
    have hd := h d (by simp)
    have hds : ∀ e ∈ ds, condGood e := fun e he => h e (by simp [he])
    simp only [List.foldl_cons, ih _ hds, countQ_append, hd.1, hd.2, argsJoin,
      List.map_cons, List.flatten, List.flatten_cons, List.length_append]
    have hsp : countQ " " = 0 := by decide
    omega

theorem countQ_clauseOf (conds : List WhereCondition)
    (h : ∀ d ∈ conds, condGood d) :
    countQ (clauseOf conds) = (argsJoin conds).length := by
  rcases conds with _ | ⟨c, rest⟩
  · simp [clauseOf, argsJoin, countQ]
  · have hc := h c (by simp)
    have hrest : ∀ e ∈ rest, condGood e := fun e he => h e (by simp [he])
    simp only [clauseOf, countQ_clause_foldl rest _ hrest, hc.1, argsJoin, List.map_cons,
      List.flatten, List.flatten_cons, List.length_append]

/-- The per-call hypothesis under which placeholder/argument alignment holds:
columns passed to the API contain no `?` character, and operators passed to
`Where`/`OrWhere` contain no `?` and no `"IN"` substring (so they cannot
collide with the serializer's IN-detection). -/
def goodCall : ApiCall → Bool
  | .whereC col op _ => countQ col == 0 && countQ op == 0 && !strContains op "IN"
  | .orWhere col op _ => countQ col == 0 && countQ op == 0 && !strContains op "IN"
  | .whereIn col _ => countQ col == 0
  | .whereNull col => countQ col == 0
  | .whereNotNull col => countQ col == 0

theorem countQ_intercalate_go (s : String) (L : List String) (acc : String) :
    countQ (String.intercalate.go acc s L)
      = countQ acc + (L.map (fun x => countQ s + countQ x)).sum := by
  induction L generalizing acc with
  | nil => simp [String.intercalate.go]
  | cons a as ih =>
    simp only [String.intercalate.go, ih, countQ_append, List.map_cons, List.sum_cons]
    ring

theorem countQ_placeholders (vs : List GoScalar) (h : vs ≠ []) :
    countQ (String.intercalate "," (vs.map fun _ => "?")) = vs.length := by
  have hgo : ∀ (L : List GoScalar) (acc : String),
      countQ (String.intercalate.go acc "," (L.map fun _ => "?"))
        = countQ acc + L.length := by
    intro L
    induction L with
    | nil => intro acc; simp [String.intercalate.go]
    | cons x xs ih =>
      intro acc
      have h2 : countQ "," = 0 := by decide
      have h3 : countQ "?" = 1 := by decide
      simp only [List.map_cons, String.intercalate.go, ih, countQ_append, h2, h3,
        List.length_cons]
      omega
  rcases vs with _ | ⟨v, rest⟩
  · exact absurd rfl h
  · simp only [List.map_cons, String.intercalate, hgo]
    have h3 : countQ "?" = 1 := by decide
    simp [h3, Nat.add_comm]

theorem in_op_ne_nullchecks (J : String) :
    "IN (" ++ J ++ ")" ≠ "IS NULL" ∧ "IN (" ++ J ++ ")" ≠ "IS NOT NULL" := by
  constructor <;> intro heq <;>
  · have hd := congrArg String.data heq
    rw [String.data_append, String.data_append] at hd
    have h4 : "IN (".data = ['I', 'N', ' ', '('] := rfl
    rw [h4] at hd
    simp only [List.cons_append, List.nil_append] at hd
    injection hd with hone htwo
    injection htwo with hmm hrest
    exact absurd hmm (by decide)

theorem strContains_in_prefixed (op : String) (rest : List Char)
    (h : op.data = 'I' :: 'N' :: rest) : strContains op "IN" = true := by
  have h2 : "IN".data = ['I', 'N'] := rfl
  simp [strContains, h2, h, listHasSub, List.isPrefixOf]

theorem applyApi_condGood (conds : List WhereCondition) (k : ApiCall)
    (hconds : ∀ c ∈ conds, condGood c) (hk : goodCall k = true) :
    ∀ c ∈ applyApi conds k, condGood c := by
  have hand : countQ "AND" = 0 := by decide
  have hor : countQ "OR" = 0 := by decide
  have hsp : countQ " " = 0 := by decide
  have hq : countQ " ?" = 1 := by decide
  have hemp : countQ "" = 0 := by decide
  cases k with
  | whereC col op v =>
    simp only [goodCall, Bool.and_eq_true, beq_iff_eq, Bool.not_eq_true'] at hk
    obtain ⟨⟨h1, h2⟩, h3⟩ := hk
    intro c hc
    rcases List.mem_append.mp hc with hmem | hmem
    · exact hconds c hmem
    · simp only [List.mem_singleton] at hmem
      subst hmem
      refine ⟨?_, hand⟩
      by_cases hn : (op == "IS NULL" || op == "IS NOT NULL") = true
      · simp [condFrag, condArgs, hn, countQ_append, h1, h2, hsp, hemp]
      · simp only [Bool.not_eq_true] at hn
        simp [condFrag, condArgs, hn, h3, countQ_append, h1, h2, hsp, hq]
  | orWhere col op v =>
    simp only [goodCall, Bool.and_eq_true, beq_iff_eq, Bool.not_eq_true'] at hk
    obtain ⟨⟨h1, h2⟩, h3⟩ := hk
    intro c hc
    rcases List.mem_append.mp hc with hmem | hmem
    · exact hconds c hmem
    · simp only [List.mem_singleton] at hmem
      subst hmem
      refine ⟨?_, hor⟩
      by_cases hn : (op == "IS NULL" || op == "IS NOT NULL") = true
      · simp [condFrag, condArgs, hn, countQ_append, h1, h2, hsp, hemp]
      · simp only [Bool.not_eq_true] at hn
        simp [condFrag, condArgs, hn, h3, countQ_append, h1, h2, hsp, hq]
  | whereIn col vs =>
    simp only [goodCall, beq_iff_eq] at hk
    intro c hc
    by_cases hlen : vs.length > 0
    · simp only [applyApi, if_pos hlen] at hc
      rcases List.mem_append.mp hc with hmem | hmem
      · exact hconds c hmem
      · simp only [List.mem_singleton] at hmem
        subst hmem
        have hne : vs ≠ [] := by
          intro hnil; rw [hnil] at hlen; exact absurd hlen (by decide)
        have hJ := countQ_placeholders vs hne
        set J := String.intercalate "," (vs.map fun _ => "?") with hJdef
        have hnn := in_op_ne_nullchecks J
        have hbeq : (("IN (" ++ J ++ ")" : String) == "IS NULL"
            || ("IN (" ++ J ++ ")" : String) == "IS NOT NULL") = false := by
          simp [beq_eq_false_iff_ne, hnn.1, hnn.2]
        have hdata : ("IN (" ++ J ++ ")").data = 'I' :: 'N' :: (' ' :: '(' :: J.data ++ [')']) := by
          rw [String.data_append, String.data_append]
          rfl
        have hcontains := strContains_in_prefixed _ _ hdata
        refine ⟨?_, hand⟩
        have hin0 : countQ "IN (" = 0 := by decide
        have hcl0 : countQ ")" = 0 := by decide
        simp [condFrag, condArgs, hbeq, hcontains, countQ_append, hk, hsp, hemp,
          hJ, hin0, hcl0, List.length_map]
    · simp only [applyApi, if_neg hlen] at hc
      exact hconds c hc
  | whereNull col =>
    simp only [goodCall, beq_iff_eq] at hk
    intro c hc
    rcases List.mem_append.mp hc with hmem | hmem
    · exact hconds c hmem
    · simp only [List.mem_singleton] at hmem
      subst hmem
      refine ⟨?_, hand⟩
      simp [condFrag, condArgs, countQ_append, hk, hsp, hemp]
      decide
  | whereNotNull col =>
    simp only [goodCall, beq_iff_eq] at hk
    intro c hc
    rcases List.mem_append.mp hc with hmem | hmem
    · exact hconds c hmem
    · simp only [List.mem_singleton] at hmem
      subst hmem
      refine ⟨?_, hand⟩
      simp [condFrag, condArgs, countQ_append, hk, hsp, hemp]
      decide

theorem applyApiCalls_condGood (calls : List ApiCall)
    (h : ∀ k ∈ calls, goodCall k = true) :
    ∀ c ∈ applyApiCalls calls, condGood c := by
  have aux : ∀ (cs : List ApiCall) (conds : List WhereCondition),
      (∀ c ∈ conds, condGood c) → (∀ k ∈ cs, goodCall k = true) →
      ∀ c ∈ cs.foldl applyApi conds, condGood c := by
    intro cs
    induction cs with
    | nil => intro conds hc _ c hmem; exact hc c hmem
    | cons k ks ih =>
      intro conds hc hg c hmem
      exact ih (applyApi conds k)
        (applyApi_condGood conds k hc (hg k (by simp)))
        (fun k2 hk2 => hg k2 (by simp [hk2])) c hmem
  exact aux calls [] (by simp) h

/-- Claim C1 (amended): for every predicate list built through the public API
(`Where`, `OrWhere`, `WhereIn`, `WhereNull`, `WhereNotNull`), PROVIDED the
column strings contain no `?` and the operator strings passed to
`Where`/`OrWhere` contain neither `?` nor the substring `"IN"`, the
serialized clause is the left-to-right concatenation of one fragment per
predicate with the argument lists concatenated in the same order, the number
of `?` placeholders equals the number of returned arguments (each fragment
containing exactly as many `?` as the arguments it contributes, which makes
the i-th argument bind to the i-th placeholder), and an empty predicate list
yields `("", [])`.  (The unamended claim is refuted by
`C1_counterexample`: a column string containing `?` breaks the count.) -/
theorem C1_serializer_alignment (calls : List ApiCall)
    (hgood : ∀ k ∈ calls, goodCall k = true) :
    buildWhereClause (applyApiCalls calls) =
      (clauseOf (applyApiCalls calls), argsJoin (applyApiCalls calls)) ∧
    countQ (buildWhereClause (applyApiCalls calls)).1
      = (buildWhereClause (applyApiCalls calls)).2.length ∧
    (∀ c ∈ applyApiCalls calls, countQ (condFrag c) = (condArgs c).length) ∧
    (applyApiCalls calls = [] → buildWhereClause (applyApiCalls calls) = ("", [])) := by
  have hcg := applyApiCalls_condGood calls hgood
  refine ⟨buildWhereClause_eq _, ?_, fun c hc => (hcg c hc).1,
    fun h => by simp [h, buildWhereClause]⟩
  rw [buildWhereClause_eq]
  exact countQ_clauseOf _ hcg

/-- Claim C1 counterexample: the predicate list built by the single public
API call `Where("a?", "=", 5)` serializes to the clause `a? = ?`, which
contains two `?` characters but only one argument — so, over all predicate
lists built through the public API, the placeholder count does not always
equal the argument count. -/
theorem C1_counterexample :
    countQ (buildWhereClause (applyApiCalls [ApiCall.whereC "a?" "=" (GoVal.vint 5)])).1 = 2 ∧
    (buildWhereClause (applyApiCalls [ApiCall.whereC "a?" "=" (GoVal.vint 5)])).2.length = 1 := by
  decide

/-- Concrete API-call sequence for the C1 witness. -/
def c1WitnessCalls : List ApiCall :=
  [.whereC "x" ">" (.vint 5), .whereIn "id" [.sint 1, .sint 2],
   .whereNull "deleted_at", .orWhere "y" "<" (.vint 3)]

theorem C1_witness :
    (∀ k ∈ c1WitnessCalls, goodCall k = true) ∧
    countQ (buildWhereClause (applyApiCalls c1WitnessCalls)).1
      = (buildWhereClause (applyApiCalls c1WitnessCalls)).2.length :=
  ⟨by decide, (C1_serializer_alignment c1WitnessCalls (by decide)).2.1⟩

/-! Terminal operations whose pure state effects matter for claims C4, C8
and C10 (`Count`, `Sum`, `Avg`, `Min`, `Max`, `First`).  Only the state
transformation and the composed (query, args) pair are modelled; executing
the statement is external. -/

/-- gsorm.go `Count`: saves the projection, overrides it with the count
expression, builds the query, and restores the saved projection.  Returns
the composed (query, args) and the post-call builder. -/
def countCall (b : Builder) : (String × List GoVal) × Builder :=
  let originalCols := b.selectCols
  let b1 : Builder := { b with selectCols := ["COUNT(*) as count"] }
  let qa := buildSelectQuery b1
  let b2 : Builder := { b1 with selectCols := originalCols }
  (qa, b2)

/-- gsorm.go `Sum`: overrides the projection with the SUM expression and
builds the query; the source contains no restore of the projection. -/
def sumCall (b : Builder) (column : String) : (String × List GoVal) × Builder :=
  let b1 : Builder := { b with selectCols := ["SUM(" ++ column ++ ") as sum"] }
  (buildSelectQuery b1, b1)

/-- gsorm.go `Max` (no restore of the projection in the source). -/
def maxCall (b : Builder) (column : String) : (String × List GoVal) × Builder :=
  let b1 : Builder := { b with selectCols := ["MAX(" ++ column ++ ") as max"] }
  (buildSelectQuery b1, b1)

/-- gsorm.go `Min` (no restore of the projection in the source). -/
def minCall (b : Builder) (column : String) : (String × List GoVal) × Builder :=
  let b1 : Builder := { b with selectCols := ["MIN(" ++ column ++ ") as min"] }
  (buildSelectQuery b1, b1)

/-- gsorm.go `Avg` (no restore of the projection in the source). -/
def avgCall (b : Builder) (column : String) : (String × List GoVal) × Builder :=
  let b1 : Builder := { b with selectCols := ["AVG(" ++ column ++ ") as avg"] }
  (buildSelectQuery b1, b1)

/-- gsorm.go `First`: sets `limitVal` to 1 (with no save/restore), builds
the query, and returns a nil error together with the row handle.  Modelled
as ((query, args), post-call builder, returned error). -/
def firstCall (b : Builder) : (String × List GoVal) × Builder × Option String :=
  let b1 : Builder := { b with limitVal := 1 }
  (buildSelectQuery b1, b1, none)

/-- Claim C8: `Count` overrides the projection to the single count
expression only for the duration of the call: the query it composes is the
one for the overridden projection, the post-call builder equals the
original builder exactly, and a subsequent fetch on the same builder
composes the same SELECT (with the originally configured columns) as
before the `Count` call. -/
theorem C8_count_restores_projection (b : Builder) :
    (countCall b).2 = b ∧
    (countCall b).1 = buildSelectQuery { b with selectCols := ["COUNT(*) as count"] } ∧
    buildSelectQuery (countCall b).2 = buildSelectQuery b := by
  have h : (countCall b).2 = b := by cases b; rfl
  exact ⟨h, rfl, by rw [h]⟩

/-- Claim C4 counterexample: for a builder configured with projection
`["a", "b"]`, after `Sum("x")` the caller-visible projection is
`["SUM(x) as sum"]`, not the configured `["a", "b"]` — the aggregate
terminal operations do not restore the projection (unlike `Count`). -/
theorem C4_counterexample :
    ((sumCall { db := 0, table := "t", selectCols := ["a", "b"], whereConds := [],
                joins := [], orderBy := [], groupBy := [], having := [], limitVal := 0,
                offsetVal := 0, tx := none } "x").2).selectCols = ["SUM(x) as sum"] ∧
    ((sumCall { db := 0, table := "t", selectCols := ["a", "b"], whereConds := [],
                joins := [], orderBy := [], groupBy := [], having := [], limitVal := 0,
                offsetVal := 0, tx := none } "x").2).selectCols ≠ ["a", "b"] := by
  decide

/-- Claim C4 (amended): each aggregate terminal operation (Sum, Avg, Min,
Max) overrides the projection to the aggregate expression PERMANENTLY: the
builder's caller-visible projection after the call is the aggregate
expression, not the previously configured projection (the source never
restores it; all other builder state is unchanged). -/
theorem C4_aggregates_override_permanently (b : Builder) (column : String) :
    (sumCall b column).2 = { b with selectCols := ["SUM(" ++ column ++ ") as sum"] } ∧
    (avgCall b column).2 = { b with selectCols := ["AVG(" ++ column ++ ") as avg"] } ∧
    (minCall b column).2 = { b with selectCols := ["MIN(" ++ column ++ ") as min"] } ∧
    (maxCall b column).2 = { b with selectCols := ["MAX(" ++ column ++ ") as max"] } ∧
    (sumCall b column).1 =
      buildSelectQuery { b with selectCols := ["SUM(" ++ column ++ ") as sum"] } :=
  ⟨rfl, rfl, rfl, rfl, rfl⟩

/-- Claim C10: `First` permanently sets the builder's limit to 1 (whatever
the previous limit was), always returns a nil error, and every SELECT
subsequently composed from the same builder carries ` LIMIT ?` with
argument 1 in the position after the WHERE and HAVING arguments. -/
theorem C10_first_sets_limit_one (b : Builder) :
    ((firstCall b).2.1).limitVal = 1 ∧
    (firstCall b).2.2 = none ∧
    (firstCall b).1 = buildSelectQuery (firstCall b).2.1 ∧
    (buildSelectQuery (firstCall b).2.1).1 =
      selectFrag (firstCall b).2.1 ++ joinsFrag (firstCall b).2.1 ++
      whereFrag (firstCall b).2.1 ++ groupFrag (firstCall b).2.1 ++
      havingFrag (firstCall b).2.1 ++ orderFrag (firstCall b).2.1 ++
      " LIMIT ?" ++ offsetFrag (firstCall b).2.1 ∧
    (buildSelectQuery (firstCall b).2.1).2 =
      whereArgsOf (firstCall b).2.1 ++ havingArgsOf (firstCall b).2.1 ++
      [GoVal.vint 1] ++ offsetArgsOf (firstCall b).2.1 := by
  have hdec := buildSelectQuery_decomp (firstCall b).2.1
  have hlim : ((firstCall b).2.1).limitVal = 1 := rfl
  have hfrag : limitFrag (firstCall b).2.1 = " LIMIT ?" := by
    simp [limitFrag, hlim]
  have hargs : limitArgsOf (firstCall b).2.1 = [GoVal.vint 1] := by
    simp [limitArgsOf, hlim]
  refine ⟨rfl, rfl, rfl, ?_, ?_⟩
  · rw [hdec]
    simp [hfrag]
  · rw [hdec]
    simp [hargs]

/-! Claim C9: the debug renderer `PrintSQL`. -/

/-- Two-digit zero padding, as the Go layout components "01", "02", "15",
"04", "05" render month, day, hour, minute, second. -/
def pad2 (n : Nat) : String := if n < 10 then "0" ++ toString n else toString n

/-- Four-digit zero padding, as the Go layout component "2006" renders the
year (for years below 10000). -/
def pad4 (n : Nat) : String :=
  if n < 10 then "000" ++ toString n
  else if n < 100 then "00" ++ toString n
  else if n < 1000 then "0" ++ toString n
  else toString n

/-- Go `t.Format("2006-01-02 15:04:05")`: the fixed sortable layout. -/
def formatTime (t : GoTime) : String :=
  pad4 t.year ++ "-" ++ pad2 t.month ++ "-" ++ pad2 t.day ++ " " ++
  pad2 t.hour ++ ":" ++ pad2 t.minute ++ ":" ++ pad2 t.second

/-- Go `strings.Replace(v, "'", "''", -1)`: double every single quote. -/
def escQuotes : List Char → List Char
  | [] => []
  | c :: rest => if c = '\'' then '\'' :: '\'' :: escQuotes rest else c :: escQuotes rest

/-- Go `fmt.Sprintf("%v", v)` on a scalar value. -/
def sprintfScalar : GoScalar → String
  | .sint n => toString n
  | .sstr s => s
  | .stime t => formatTime t
  | .snil => "<nil>"

/-- Go `fmt.Sprintf("%v", v)` on an `interface{}` value (`[]interface{}`
renders as its elements space-separated in brackets). -/
def sprintfV : GoVal → String
  | .vint n => toString n
  | .vstr s => s
  | .vtime t => formatTime t
  | .vnil => "<nil>"
  | .vlist vs => "[" ++ String.intercalate " " (vs.map sprintfScalar) ++ "]"

/-- The switch inside gsorm.go `PrintSQL`: the literal rendering of one
argument (string → single-quoted with quotes doubled; time → quoted fixed
layout; nil → NULL; default → `%v`). -/
def renderVal : GoVal → String
  | .vstr s => "'" ++ String.mk (escQuotes s.data) ++ "'"
  | .vtime t => "'" ++ formatTime t ++ "'"
  | .vnil => "NULL"
  | v => sprintfV v

/-- Go `strings.Replace(q, "?", v, 1)`: replace the first `?` occurrence. -/
def replaceFirstQChars (v : List Char) : List Char → List Char
  | [] => []
  | c :: rest => if c = '?' then v ++ rest else c :: replaceFirstQChars v rest

/-- String wrapper of `replaceFirstQChars`. -/
def replaceFirstQ (q v : String) : String := String.mk (replaceFirstQChars v.data q.data)

/-- gsorm.go `PrintSQL`: composes the SELECT and then, once per argument,
replaces the first remaining `?` occurrence in the accumulated text by the
argument's literal rendering. -/
def printSQL (b : Builder) : String :=
  let qa := buildSelectQuery b
  qa.2.foldl (fun query arg => replaceFirstQ query (renderVal arg)) qa.1

/-- Modelled from the claim: single-pass positional substitution that
replaces the k-th `?` placeholder of the composed text by the k-th rendered
argument and never rescans substituted text. -/
def substChars : List Char → List (List Char) → List Char
  | [], _ => []
  | c :: rest, [] => c :: rest
  | c :: rest, v :: vs =>
    if c = '?' then v ++ substChars rest vs else c :: substChars rest (v :: vs)

/-- String wrapper of `substChars`. -/
def substPlaceholders (q : String) (vals : List String) : String :=
  String.mk (substChars q.data (vals.map String.data))

theorem string_mk_data (s : String) : String.mk s.data = s := rfl

theorem substChars_nil (cs : List Char) : substChars cs [] = cs := by
  cases cs <;> rfl

theorem substChars_append_noQ (u : List Char) (hu : u.count '?' = 0)
    (w : List Char) (vs : List (List Char)) :
    substChars (u ++ w) vs = u ++ substChars w vs := by
  induction u with
  | nil => simp
  | cons c u2 ih =>
    have hc : c ≠ '?' := by
      intro hq
      rw [hq] at hu
      simp [List.count_cons] at hu
    have hu2 : u2.count '?' = 0 := by
      rw [List.count_cons] at hu
      omega
    cases vs with
    | nil => simp [substChars_nil]
    | cons v vs2 =>
      simp only [List.cons_append, substChars, if_neg hc]
      exact congrArg (List.cons c) (ih hu2)

theorem substChars_single (v : List Char) (cs : List Char) :
    substChars cs [v] = replaceFirstQChars v cs := by
  induction cs with
  | nil => rfl
  | cons c rest ih =>
    by_cases hc : c = '?'
    · simp [substChars, replaceFirstQChars, hc, substChars_nil]
    · simp [substChars, replaceFirstQChars, hc, ih]

theorem substChars_replaceFirst (v : List Char) (hv : v.count '?' = 0)
    (vs : List (List Char)) (cs : List Char) :
    substChars (replaceFirstQChars v cs) vs = substChars cs (v :: vs) := by
  induction cs with
  | nil => cases vs <;> rfl
  | cons c rest ih =>
    by_cases hc : c = '?'
    · simp only [replaceFirstQChars, if_pos hc, substChars_append_noQ v hv]
      simp [substChars, hc]
    · simp only [replaceFirstQChars, if_neg hc]
      cases vs with
      | nil =>
        simp [substChars_nil, substChars, hc, substChars_single]
      | cons w vs2 =>
        simp [substChars, hc, ih]

theorem replace_fold_eq_subst (vals : List String) (q : String)
    (h : ∀ v ∈ vals, v.data.count '?' = 0) :
    vals.foldl (fun acc v => replaceFirstQ acc v) q = substPlaceholders q vals := by
  induction vals generalizing q with
  | nil => simp [substPlaceholders, substChars_nil, string_mk_data]
  | cons v vs ih =>
    have hv : v.data.count '?' = 0 := h v (by simp)
    have hvs : ∀ w ∈ vs, w.data.count '?' = 0 := fun w hw => h w (by simp [hw])
    rw [List.foldl_cons, ih (replaceFirstQ q v) hvs]
    show substPlaceholders (replaceFirstQ q v) vs = substPlaceholders q (v :: vs)
    simp only [substPlaceholders, replaceFirstQ, List.map_cons]
    exact congrArg String.mk (substChars_replaceFirst v.data hv _ _)

/-- Claim C9 (amended): PROVIDED no argument's rendered literal itself
contains a `?` character, the debug renderer equals the positional
substitution that replaces every `?` placeholder, in order, by the literal
rendering of the corresponding argument — strings single-quoted with
internal quotes doubled, times in the fixed sortable layout, nil as the
literal NULL, every other value in default `%v` form.  (Without the
proviso the claim is refuted by `C9_counterexample`: the source replaces
one `?` at a time in already-substituted text, so a string argument
containing `?` makes later arguments land inside the substituted
literal.) -/
theorem C9_printsql_substitution (b : Builder)
    (h : ∀ a ∈ (buildSelectQuery b).2, (renderVal a).data.count '?' = 0) :
    printSQL b =
      substPlaceholders (buildSelectQuery b).1 ((buildSelectQuery b).2.map renderVal) ∧
    (∀ s, renderVal (.vstr s) = "'" ++ String.mk (escQuotes s.data) ++ "'") ∧
    (∀ t, renderVal (.vtime t) = "'" ++ formatTime t ++ "'") ∧
    renderVal .vnil = "NULL" ∧
    (∀ n : Int, renderVal (.vint n) = toString n) := by
  refine ⟨?_, fun s => rfl, fun t => rfl, rfl, fun n => rfl⟩
  have h2 : ∀ v ∈ (buildSelectQuery b).2.map renderVal, v.data.count '?' = 0 := by
    intro v hv
    obtain ⟨a, ha, rfl⟩ := List.mem_map.mp hv
    exact h a ha
  show (buildSelectQuery b).2.foldl (fun query arg => replaceFirstQ query (renderVal arg))
      (buildSelectQuery b).1 = _
  rw [← List.foldl_map]
  exact replace_fold_eq_subst _ _ h2

/-- Builder whose composed SELECT is
`SELECT * FROM t WHERE x = ? LIMIT ?` with arguments `["?", 1]`. -/
def exBuilderC9 : Builder :=
  { db := 0, table := "t", selectCols := ["*"],
    whereConds := [{ column := "x", operator := "=", value := .vstr "?", logic := "AND" }],
    joins := [], orderBy := [], groupBy := [], having := [],
    limitVal := 1, offsetVal := 0, tx := none }

/-- Claim C9 counterexample: for the query
`SELECT * FROM t WHERE x = ? LIMIT ?` with arguments `["?", 1]`, replacing
every placeholder in order by its rendering would give
`... x = '?' LIMIT 1`, but `PrintSQL` produces `... x = '1' LIMIT ?`: the
second argument is substituted into the `?` inside the first argument's
quoted literal, not into the LIMIT placeholder. -/
theorem C9_counterexample :
    printSQL exBuilderC9 = "SELECT * FROM t WHERE x = '1' LIMIT ?" ∧
    substPlaceholders (buildSelectQuery exBuilderC9).1
        ((buildSelectQuery exBuilderC9).2.map renderVal)
      = "SELECT * FROM t WHERE x = '?' LIMIT 1" ∧
    printSQL exBuilderC9 ≠
      substPlaceholders (buildSelectQuery exBuilderC9).1
        ((buildSelectQuery exBuilderC9).2.map renderVal) := by
  decide

/-- Builder for the C9 witness: a quoted string, a time and a nil argument. -/
def c9WitnessBuilder : Builder :=
  { db := 0, table := "t", selectCols := ["*"],
    whereConds :=
      [{ column := "name", operator := "=", value := .vstr "O'Brien", logic := "AND" },
       { column := "born", operator := ">", value := .vtime ⟨2006, 1, 2, 15, 4, 5⟩,
         logic := "AND" },
       { column := "ref", operator := "=", value := .vnil, logic := "AND" }],
    joins := [], orderBy := [], groupBy := [], having := [],
    limitVal := 3, offsetVal := 0, tx := none }

theorem C9_witness :
    (∀ a ∈ (buildSelectQuery c9WitnessBuilder).2, (renderVal a).data.count '?' = 0) ∧
    printSQL c9WitnessBuilder =
      substPlaceholders (buildSelectQuery c9WitnessBuilder).1
        ((buildSelectQuery c9WitnessBuilder).2.map renderVal) :=
  ⟨by decide, (C9_printsql_substitution c9WitnessBuilder (by decide)).1⟩

/-! Claim C5: the bulk keyed UPDATE (`UpdateBulk`). -/

/-- A Go `map[string]interface{}` row, modelled as an association list. -/
abbrev Row := List (String × GoVal)

/-- Go map indexing `u[k]`: an absent key yields the zero value `nil`. -/
def rowGet (r : Row) (k : String) : GoVal := (r.lookup k).getD GoVal.vnil

/-- Whether a row sets a column (Go: `_, ok := u[k]`). -/
def rowHas (r : Row) (k : String) : Bool := (r.lookup k).isSome

/-- One SET clause of gsorm.go `UpdateBulk`: the CASE expression for `col`,
with one `WHEN ? THEN ?` pair appended per input row. -/
def caseClauseFor (keyColumn : String) (updates : List Row) (col : String) : String :=
  col ++ " = CASE " ++ keyColumn ++
    String.join (updates.map fun _ => " WHEN ? THEN ?") ++ " ELSE " ++ col ++ " END"

/-- The arguments contributed by one SET clause: for each row in row order,
its key value then its value for `col` (Go: `update[keyColumn], update[col]`;
a row without the column contributes `nil`). -/
def setArgsFor (keyColumn : String) (updates : List Row) (col : String) : List GoVal :=
  (updates.map fun u => [rowGet u keyColumn, rowGet u col]).flatten

/-- gsorm.go `UpdateBulk`.  Go iterates the set of non-key columns touched
by any row in unspecified map order; the model takes that enumeration as
the explicit parameter `colOrder`.  Empty input returns `none` (Go: early
`nil` return, no statement executed). -/
def updateBulk (table : String) (updates : List Row) (keyColumn : String)
    (colOrder : List String) : Option (String × List GoVal) :=
  if updates.length = 0 then none
  else
    let setClauses := colOrder.map (caseClauseFor keyColumn updates)
    let args := colOrder.foldl
      (fun a col => a ++ updates.foldl
        (fun a2 u => a2 ++ [rowGet u keyColumn, rowGet u col]) []) []
    let keyValues := updates.map fun u => rowGet u keyColumn
    let inPlaceholders := updates.map fun _ => "?"
    let query := "UPDATE " ++ table ++ " SET " ++ String.intercalate ", " setClauses ++
      " WHERE " ++ keyColumn ++ " IN (" ++ String.intercalate ", " inPlaceholders ++ ")"
    some (query, args ++ keyValues)

theorem countQ_intercalate (sep : String) (hsep : countQ sep = 0) (L : List String) :
    countQ (String.intercalate sep L) = (L.map countQ).sum := by
  rcases L with _ | ⟨a, as⟩
  · rfl
  · simp only [String.intercalate, countQ_intercalate_go, List.map_cons, List.sum_cons,
      hsep, Nat.zero_add]

theorem countQ_placeholder_list {α : Type} (sep : String) (hsep : countQ sep = 0)
    (L : List α) :
    countQ (String.intercalate sep (L.map fun _ => "?")) = L.length := by
  rw [countQ_intercalate sep hsep]
  induction L with
  | nil => rfl
  | cons x xs ih =>
    have h1 : countQ "?" = 1 := by decide
    simp only [List.map_cons, List.sum_cons, ih, h1, List.length_cons]
    omega

theorem countQ_join_pairs (updates : List Row) :
    countQ (String.join (updates.map fun _ => " WHEN ? THEN ?")) = 2 * updates.length := by
  induction updates with
  | nil => rfl
  | cons u us ih =>
    have h2 : countQ " WHEN ? THEN ?" = 2 := by decide
    simp only [List.map_cons, string_join_cons, countQ_append, ih, h2, List.length_cons]
    omega

theorem foldl_append_flatten {α β : Type} (f : α → List β) (L : List α) (init : List β) :
    L.foldl (fun a x => a ++ f x) init = init ++ (L.map f).flatten := by
  induction L generalizing init with
  | nil => simp
  | cons x xs ih => simp [ih, List.append_assoc]

theorem countQ_caseClause (keyColumn col : String) (updates : List Row)
    (hkey : countQ keyColumn = 0) (hcol : countQ col = 0) :
    countQ (caseClauseFor keyColumn updates col) = 2 * updates.length := by
  have h1 : countQ " = CASE " = 0 := by decide
  have h2 : countQ " ELSE " = 0 := by decide
  have h3 : countQ " END" = 0 := by decide
  simp only [caseClauseFor, countQ_append, hkey, hcol, h1, h2, h3, countQ_join_pairs]
  omega

theorem setArgsFor_length (keyColumn col : String) (updates : List Row) :
    (setArgsFor keyColumn updates col).length = 2 * updates.length := by
  simp only [setArgsFor, List.length_flatten, List.map_map]
  induction updates with
  | nil => rfl
  | cons u us ih =>
    simp only [List.map_cons, List.sum_cons, ih, List.length_cons, Function.comp]
    simp [Nat.mul_add, Nat.add_comm]

/-- Claim C5 (amended): in `UpdateBulk`, for every enumeration `colOrder` of
the non-key columns touched by any input row, every generated SET clause
contains one `WHEN ? THEN ?` pair for EVERY row of the batch in row order —
a row that does not set the column contributes its key with value `nil`
(so that row's column is overwritten with NULL rather than preserved by the
`ELSE col` fallback, which is reached by no key in the batch).  The
argument order is: for each SET clause its WHEN/THEN pairs in row order,
then the WHERE IN key values in row order; the IN placeholder count equals
the number of rows; and (for `?`-free table, key and column names) the
statement's total placeholder count equals its argument count.  (The
preservation half of the unamended claim is refuted by
`C5_counterexample`.) -/
theorem C5_update_bulk_shape (table keyColumn : String) (updates : List Row)
    (colOrder : List String)
    (hne : updates ≠ [])
    (hkey : countQ keyColumn = 0)
    (hcols : ∀ c ∈ colOrder, countQ c = 0)
    (htable : countQ table = 0) :
    updateBulk table updates keyColumn colOrder =
      some ("UPDATE " ++ table ++ " SET " ++
              String.intercalate ", " (colOrder.map (caseClauseFor keyColumn updates)) ++
              " WHERE " ++ keyColumn ++ " IN (" ++
              String.intercalate ", " (updates.map fun _ => "?") ++ ")",
            (colOrder.map (setArgsFor keyColumn updates)).flatten ++
              updates.map (fun u => rowGet u keyColumn)) ∧
    (∀ col ∈ colOrder,
       countQ (caseClauseFor keyColumn updates col) = 2 * updates.length ∧
       (setArgsFor keyColumn updates col).length = 2 * updates.length) ∧
    countQ (String.intercalate ", " (updates.map fun _ => "?")) = updates.length ∧
    (∀ u : Row, ∀ col : String, rowHas u col = false → rowGet u col = GoVal.vnil) ∧
    countQ ("UPDATE " ++ table ++ " SET " ++
        String.intercalate ", " (colOrder.map (caseClauseFor keyColumn updates)) ++
        " WHERE " ++ keyColumn ++ " IN (" ++
        String.intercalate ", " (updates.map fun _ => "?") ++ ")")
      = ((colOrder.map (setArgsFor keyColumn updates)).flatten ++
          updates.map (fun u => rowGet u keyColumn)).length := by
  have hlen : ¬ updates.length = 0 := by
    intro h0
    exact hne (List.length_eq_zero.mp h0)
  have hcomma : countQ ", " = 0 := by decide
  refine ⟨?_, ?_, countQ_placeholder_list ", " hcomma updates, ?_, ?_⟩
  · simp only [updateBulk, if_neg hlen, foldl_append_flatten, List.nil_append]
    have hsa : setArgsFor keyColumn updates =
        fun col => (updates.map fun u => [rowGet u keyColumn, rowGet u col]).flatten := rfl
    rw [hsa]
  · intro col hcol
    exact ⟨countQ_caseClause keyColumn col updates hkey (hcols col hcol),
           setArgsFor_length keyColumn col updates⟩
  · intro u col h
    simp only [rowHas] at h
    rw [rowGet]
    cases hx : List.lookup col u with
    | none => rfl
    | some v => rw [hx] at h; simp at h
  · have hup : countQ "UPDATE " = 0 := by decide
    have hset : countQ " SET " = 0 := by decide
    have hwh : countQ " WHERE " = 0 := by decide
    have hin : countQ " IN (" = 0 := by decide
    have hcl : countQ ")" = 0 := by decide
    simp only [countQ_append, hup, hset, hwh, hin, hcl, htable, hkey,
      countQ_intercalate ", " hcomma, countQ_placeholder_list ", " hcomma,
      List.length_append, List.length_flatten, List.map_map, List.length_map]
    have hsum : ∀ (cols : List String), (∀ c ∈ cols, countQ c = 0) →
        ((cols.map (caseClauseFor keyColumn updates)).map countQ).sum
          = ((cols.map (setArgsFor keyColumn updates)).map List.length).sum := by
      intro cols hc
      induction cols with
      | nil => rfl
      | cons c cs ih =>
        have hch : countQ c = 0 := hc c (by simp)
        have hcs : ∀ x ∈ cs, countQ x = 0 := fun x hx => hc x (by simp [hx])
        simp only [List.map_cons, List.sum_cons, ih hcs,
          countQ_caseClause keyColumn c updates hkey hch,
          setArgsFor_length keyColumn c updates]
    have hsc := hsum colOrder hcols
    simp only [List.map_map] at hsc
    have hph : ∀ (L : List Row), (L.map (countQ ∘ fun _ => "?")).sum = L.length := by
      intro L
      induction L with
      | nil => rfl
      | cons x xs ih =>
        have h1 : countQ "?" = 1 := by decide
        simp only [List.map_cons, List.sum_cons, ih, List.length_cons, Function.comp, h1]
        omega
    have hph2 := hph updates
    omega

/-- The two-row batch for the C5 counterexample: the first row sets
`salary`, the second row only carries the key. -/
def c5Rows : List Row :=
  [[("id", GoVal.vint 1), ("salary", GoVal.vint 100)], [("id", GoVal.vint 2)]]

/-- Claim C5 counterexample: with rows `[{id:1, salary:100}, {id:2}]` keyed
on `id`, the generated SET clause carries a `WHEN ? THEN ?` pair for BOTH
rows, binding `(2, NULL)` for the row that does not set `salary` — that
row's `salary` is overwritten with NULL instead of being preserved by the
`ELSE salary` fallback, and the argument list is
`[1, 100, 2, nil, 1, 2]` rather than the `[1, 100, 1, 2]` that
per-setting-row pairs would produce. -/
theorem C5_counterexample :
    updateBulk "users" c5Rows "id" ["salary"] =
      some ("UPDATE users SET salary = CASE id WHEN ? THEN ? WHEN ? THEN ? " ++
              "ELSE salary END WHERE id IN (?, ?)",
            [GoVal.vint 1, GoVal.vint 100, GoVal.vint 2, GoVal.vnil,
             GoVal.vint 1, GoVal.vint 2]) ∧
    rowHas [("id", GoVal.vint 2)] "salary" = false ∧
    (updateBulk "users" c5Rows "id" ["salary"]).map Prod.snd ≠
      some [GoVal.vint 1, GoVal.vint 100, GoVal.vint 1, GoVal.vint 2] := by
  decide

theorem C5_witness :
    (c5Rows ≠ [] ∧ countQ "id" = 0 ∧ (∀ c ∈ ["salary"], countQ c = 0) ∧
      countQ "users" = 0) ∧
    updateBulk "users" c5Rows "id" ["salary"] =
      some ("UPDATE " ++ "users" ++ " SET " ++
              String.intercalate ", " (["salary"].map (caseClauseFor "id" c5Rows)) ++
              " WHERE " ++ "id" ++ " IN (" ++
              String.intercalate ", " (c5Rows.map fun _ => "?") ++ ")",
            (["salary"].map (setArgsFor "id" c5Rows)).flatten ++
              c5Rows.map (fun u => rowGet u "id")) :=
  ⟨⟨by decide, by decide, by decide, by decide⟩,
   (C5_update_bulk_shape "users" "id" c5Rows ["salary"] (by decide) (by decide)
      (by decide) (by decide)).1⟩

/-! Claims C6 and C7: transaction state handling. -/

/-- The opaque executor outcomes for one transaction round: the result of
`db.Begin()` (an error, or success yielding the handle `newTx`), and the
errors, if any, returned by `Commit` and `Rollback`. -/
structure TxEnv where
  beginErr : Option String
  newTx : Nat
  commitErr : Option String
  rollbackErr : Option String
deriving DecidableEq, Repr

/-- gsorm.go `BeginTransaction`: calls `db.Begin()` and, on success, stores
the new transaction handle — with no check whether one is already active —
returning nil. -/
def beginTransaction (env : TxEnv) (b : Builder) : Builder × Option String :=
  match env.beginErr with
  | some e => (b, some e)
  | none => ({ b with tx := some env.newTx }, none)

/-- gsorm.go `CommitTransaction`: distinct error when no transaction is
active; otherwise commits, clears the handle, and returns the commit
error. -/
def commitTransaction (env : TxEnv) (b : Builder) : Builder × Option String :=
  match b.tx with
  | none => (b, some "no active transaction")
  | some _ => ({ b with tx := none }, env.commitErr)

/-- gsorm.go `RollbackTransaction`. -/
def rollbackTransaction (env : TxEnv) (b : Builder) : Builder × Option String :=
  match b.tx with
  | none => (b, some "no active transaction")
  | some _ => ({ b with tx := none }, env.rollbackErr)

/-- gsorm.go `WithTransaction`: begins, runs the unit of work (whose outcome
is `fnErr`), and on failure calls `RollbackTransaction` as a bare statement
— its returned error is discarded — then returns the function's error; on
success returns the commit result. -/
def withTransaction (env : TxEnv) (fnErr : Option String) (b : Builder) :
    Builder × Option String :=
  match beginTransaction env b with
  | (b1, some e) => (b1, some e)
  | (b1, none) =>
    match fnErr with
    | some fe => ((rollbackTransaction env b1).1, some fe)
    | none => commitTransaction env b1

/-- An idle builder (no active transaction) for the transaction claims. -/
def b0Tx : Builder :=
  { db := 0, table := "t", selectCols := ["*"], whereConds := [], joins := [],
    orderBy := [], groupBy := [], having := [], limitVal := 0, offsetVal := 0,
    tx := none }

/-- A builder with an active transaction (handle 7). -/
def b7Tx : Builder := { b0Tx with tx := some 7 }

/-- Claim C6 (amended): when the unit-of-work function fails, the wrapper
rolls back (the transaction handle is cleared) and returns exactly the
function's own failure; the rollback's own error is DISCARDED, not reported
alongside — the result is the same whatever the rollback outcome is, since
the environment (including the rollback error) is universally quantified
and absent from the conclusion. -/
theorem C6_rollback_error_discarded (env : TxEnv) (b : Builder) (e : String)
    (hbegin : env.beginErr = none) :
    withTransaction env (some e) b = ({ b with tx := none }, some e) := by
  simp [withTransaction, beginTransaction, hbegin, rollbackTransaction]

/-- Claim C6 counterexample: with a unit of work failing with "fn failure"
and a rollback failing with "rollback failure", the wrapper returns exactly
"fn failure"; the rollback error is not returned and not contained in the
returned error — it is not inspectable by the caller. -/
theorem C6_counterexample :
    (withTransaction ⟨none, 1, none, some "rollback failure"⟩
        (some "fn failure") b0Tx).2 = some "fn failure" ∧
    (withTransaction ⟨none, 1, none, some "rollback failure"⟩
        (some "fn failure") b0Tx).2 ≠ some "rollback failure" ∧
    strContains "fn failure" "rollback failure" = false := by
  decide

theorem C6_witness :
    ((⟨none, 1, none, some "rb"⟩ : TxEnv).beginErr = none) ∧
    withTransaction ⟨none, 1, none, some "rb"⟩ (some "boom") b0Tx
      = ({ b0Tx with tx := none }, some "boom") :=
  ⟨rfl, C6_rollback_error_discarded ⟨none, 1, none, some "rb"⟩ b0Tx "boom" rfl⟩

/-- Claim C7 (amended): beginning a transaction while one is active does
NOT return an error — when `db.Begin()` succeeds, `BeginTransaction`
returns nil and silently REPLACES the stored transaction handle, whatever
the previous one was; commit and rollback with no active transaction do
return the distinct error "no active transaction" (without touching the
executor), so only that half of the claim holds. -/
theorem C7_transaction_state_misuse (env : TxEnv) (b : Builder)
    (hbegin : env.beginErr = none) :
    (beginTransaction env b).2 = none ∧
    (beginTransaction env b).1.tx = some env.newTx ∧
    (b.tx = none → commitTransaction env b = (b, some "no active transaction")) ∧
    (b.tx = none → rollbackTransaction env b = (b, some "no active transaction")) := by
  refine ⟨?_, ?_, ?_, ?_⟩
  · simp [beginTransaction, hbegin]
  · simp [beginTransaction, hbegin]
  · intro h; simp [commitTransaction, h]
  · intro h; simp [rollbackTransaction, h]

/-- Claim C7 counterexample: a builder with active transaction handle 7;
beginning again (with the executor handing out handle 8) returns a nil
error and replaces the stored handle — it neither errors nor preserves the
active transaction. -/
theorem C7_counterexample :
    b7Tx.tx = some 7 ∧
    (beginTransaction ⟨none, 8, none, none⟩ b7Tx).2 = none ∧
    (beginTransaction ⟨none, 8, none, none⟩ b7Tx).1.tx = some 8 := by
  decide

theorem C7_witness :
    ((⟨none, 8, none, none⟩ : TxEnv).beginErr = none) ∧
    ((beginTransaction ⟨none, 8, none, none⟩ b0Tx).2 = none ∧
     (beginTransaction ⟨none, 8, none, none⟩ b0Tx).1.tx = some 8 ∧
     (b0Tx.tx = none →
        commitTransaction ⟨none, 8, none, none⟩ b0Tx
          = (b0Tx, some "no active transaction")) ∧
     (b0Tx.tx = none →
        rollbackTransaction ⟨none, 8, none, none⟩ b0Tx
          = (b0Tx, some "no active transaction"))) :=
  ⟨rfl, C7_transaction_state_misuse ⟨none, 8, none, none⟩ b0Tx rfl⟩

/-! Claim C3: `Clone` and aliasing independence.  Go slices are references
into backing arrays, so "mutating the clone never changes the source" is a
statement about aliasing; to express it we model a heap of backing arrays
explicitly.  An array has contents and a capacity; a slice header is nil or
a pair (array id, length).  `append` writes in place when spare capacity
exists (which an alias of the same array would observe) and reallocates
into a fresh array otherwise; `Clone` copies each non-empty list into a
fresh array of exactly its length, as `make` + `copy` do in the source. -/

/-- A heap cell: an element of one of the builder's slices. -/
inductive Cell where
  | cellStr : String → Cell
  | cellPred : WhereCondition → Cell
  | cellJoin : JoinCondition → Cell
  | cellOrd : OrderCondition → Cell
  | cellVal : GoVal → Cell
deriving DecidableEq, Repr

/-- A Go backing array: current contents and capacity. -/
structure GoArr where
  data : List Cell
  cap : Nat
deriving DecidableEq, Repr

/-- The heap of backing arrays, indexed by allocation order. -/
abbrev Heap := List GoArr

/-- A Go slice header: nil, or a backing-array id plus a length. -/
inductive GoSlice where
  | nilS : GoSlice
  | ref : Nat → Nat → GoSlice
deriving DecidableEq, Repr

/-- Go `len(s)`. -/
def sliceLen : GoSlice → Nat
  | .nilS => 0
  | .ref _ len => len

/-- The visible elements of a slice. -/
def readSlice (h : Heap) : GoSlice → List Cell
  | .nilS => []
  | .ref id len =>
    match h[id]? with
    | some a => a.data.take len
    | none => []

/-- A slice is valid when its array is allocated, its length is within the
array contents, and the contents fit the capacity. -/
def validS (h : Heap) : GoSlice → Bool
  | .nilS => true
  | .ref id len =>
    match h[id]? with
    | some a => len ≤ a.data.length && a.data.length ≤ a.cap
    | none => false

/-- Go `append(s, x)`: writes in place when spare capacity exists (visible
through any alias of the same backing array), reallocates into a fresh
array otherwise; appending to a nil slice allocates. -/
def appendCell (h : Heap) (s : GoSlice) (x : Cell) : Heap × GoSlice :=
  match s with
  | .nilS => (h ++ [⟨[x], 1⟩], .ref h.length 1)
  | .ref id len =>
    match h[id]? with
    | none => (h, s)
    | some a =>
      if len < a.cap then
        (h.set id ⟨a.data.take len ++ [x] ++ a.data.drop (len + 1), a.cap⟩,
         .ref id (len + 1))
      else
        (h ++ [⟨a.data.take len ++ [x], 2 * len + 2⟩], .ref h.length (len + 1))

/-- Go `append(s, xs...)`, element by element (the contents visible after
a multi-element append are the same). -/
def appendMany (h : Heap) (s : GoSlice) : List Cell → Heap × GoSlice
  | [] => (h, s)
  | x :: rest =>
    let hs := appendCell h s x
    appendMany hs.1 hs.2 rest

/-- Go `make([]T, n)` followed by `copy` (and composite literals): a fresh
array holding exactly the given contents, capacity equal to the length. -/
def allocCopy (h : Heap) (xs : List Cell) : Heap × GoSlice :=
  (h ++ [⟨xs, xs.length⟩], .ref h.length xs.length)

/-- gsorm.go `Builder` with its slice fields as heap references (`db` and
`tx` are the opaque executor references). -/
structure BuilderS where
  db : Nat
  table : String
  selectCols : GoSlice
  whereConds : GoSlice
  joins : GoSlice
  orderBy : GoSlice
  groupBy : GoSlice
  having : GoSlice
  limitVal : Int
  offsetVal : Int
  args : GoSlice
  tx : Option Nat
deriving DecidableEq, Repr

/-- The value snapshot of a builder: everything a caller observes. -/
structure BuilderView where
  db : Nat
  table : String
  selectCols : List Cell
  whereConds : List Cell
  joins : List Cell
  orderBy : List Cell
  groupBy : List Cell
  having : List Cell
  limitVal : Int
  offsetVal : Int
  args : List Cell
  tx : Option Nat
deriving DecidableEq, Repr

/-- Observe a builder's state through the heap. -/
def viewB (h : Heap) (b : BuilderS) : BuilderView :=
  { db := b.db, table := b.table, selectCols := readSlice h b.selectCols,
    whereConds := readSlice h b.whereConds, joins := readSlice h b.joins,
    orderBy := readSlice h b.orderBy, groupBy := readSlice h b.groupBy,
    having := readSlice h b.having, limitVal := b.limitVal,
    offsetVal := b.offsetVal, args := readSlice h b.args, tx := b.tx }

/-- All slice fields of the builder are valid in the heap. -/
def validB (h : Heap) (b : BuilderS) : Bool :=
  validS h b.selectCols && validS h b.whereConds && validS h b.joins &&
  validS h b.orderBy && validS h b.groupBy && validS h b.having && validS h b.args

/-- One `if len > 0 { make + copy }` block of gsorm.go `Clone` for the
fields whose empty case stays nil. -/
def clonePiece (h : Heap) (s : GoSlice) : Heap × GoSlice :=
  if 0 < sliceLen s then allocCopy h (readSlice h s) else (h, GoSlice.nilS)

/-- The `selectCols` block of `Clone`: empty projection becomes a fresh
`["*"]` composite literal. -/
def cloneSelect (h : Heap) (s : GoSlice) : Heap × GoSlice :=
  if 0 < sliceLen s then allocCopy h (readSlice h s)
  else allocCopy h [Cell.cellStr "*"]

/-- The `args` block of `Clone`: empty args become a fresh empty array
(`make([]interface{}, 0)`). -/
def cloneArgs (h : Heap) (s : GoSlice) : Heap × GoSlice :=
  if 0 < sliceLen s then allocCopy h (readSlice h s) else allocCopy h []

/-- gsorm.go `Clone`: scalar fields and the executor references (`db`,
`tx`) are copied; each non-empty slice is copied into a fresh array; an
empty projection becomes a fresh `["*"]` literal, empty args a fresh empty
array, the other empty slices stay nil. -/
def cloneS (h : Heap) (b : BuilderS) : Heap × BuilderS :=
  let hsc := cloneSelect h b.selectCols
  let hwc := clonePiece hsc.1 b.whereConds
  let hjs := clonePiece hwc.1 b.joins
  let hob := clonePiece hjs.1 b.orderBy
  let hgb := clonePiece hob.1 b.groupBy
  let hhv := clonePiece hgb.1 b.having
  let har := cloneArgs hhv.1 b.args
  (har.1,
   { db := b.db, table := b.table, selectCols := hsc.2, whereConds := hwc.2,
     joins := hjs.2, orderBy := hob.2, groupBy := hgb.2, having := hhv.2,
     limitVal := b.limitVal, offsetVal := b.offsetVal, args := har.2, tx := b.tx })

/-- The `OrderBy` direction normalization in gsorm.go. -/
def normDir (direction : String) : String :=
  let dir := direction.toUpper
  if !(dir == "ASC") && !(dir == "DESC") then "ASC" else dir

/-- One chainable configuration call of the public API. -/
inductive ConfigCall where
  | table : String → ConfigCall
  | selectCols : List String → ConfigCall
  | whereC : String → String → GoVal → ConfigCall
  | orWhere : String → String → GoVal → ConfigCall
  | whereIn : String → List GoScalar → ConfigCall
  | whereNull : String → ConfigCall
  | whereNotNull : String → ConfigCall
  | leftJoin : String → String → ConfigCall
  | rightJoin : String → String → ConfigCall
  | innerJoin : String → String → ConfigCall
  | orderBy : String → String → ConfigCall
  | groupBy : List String → ConfigCall
  | having : String → String → GoVal → ConfigCall
  | limit : Int → ConfigCall
  | offset : Int → ConfigCall
  | paginate : Int → Int → ConfigCall
deriving DecidableEq, Repr

/-- The heap/state effect of one configuration call, as in gsorm.go
(each method mutates the builder in place and returns it). -/
def applyCall (h : Heap) (b : BuilderS) : ConfigCall → Heap × BuilderS
  | .table t => (h, { b with table := t })
  | .selectCols cols =>
    let hs := allocCopy h (cols.map Cell.cellStr)
    (hs.1, { b with selectCols := hs.2 })
  | .whereC col op v =>
    let hs := appendCell h b.whereConds (.cellPred ⟨col, op, v, "AND"⟩)
    (hs.1, { b with whereConds := hs.2 })
  | .orWhere col op v =>
    let hs := appendCell h b.whereConds (.cellPred ⟨col, op, v, "OR"⟩)
    (hs.1, { b with whereConds := hs.2 })
  | .whereIn col vs =>
    if vs.length > 0 then
      let hs := appendCell h b.whereConds
        (.cellPred ⟨col, "IN (" ++ String.intercalate "," (vs.map fun _ => "?") ++ ")",
          .vlist vs, "AND"⟩)
      (hs.1, { b with whereConds := hs.2 })
    else (h, b)
  | .whereNull col =>
    let hs := appendCell h b.whereConds (.cellPred ⟨col, "IS NULL", .vnil, "AND"⟩)
    (hs.1, { b with whereConds := hs.2 })
  | .whereNotNull col =>
    let hs := appendCell h b.whereConds (.cellPred ⟨col, "IS NOT NULL", .vnil, "AND"⟩)
    (hs.1, { b with whereConds := hs.2 })
  | .leftJoin t c =>
    let hs := appendCell h b.joins (.cellJoin ⟨"LEFT", t, c⟩)
    (hs.1, { b with joins := hs.2 })
  | .rightJoin t c =>
    let hs := appendCell h b.joins (.cellJoin ⟨"RIGHT", t, c⟩)
    (hs.1, { b with joins := hs.2 })
  | .innerJoin t c =>
    let hs := appendCell h b.joins (.cellJoin ⟨"INNER", t, c⟩)
    (hs.1, { b with joins := hs.2 })
  | .orderBy col dir =>
    let hs := appendCell h b.orderBy (.cellOrd ⟨col, normDir dir⟩)
    (hs.1, { b with orderBy := hs.2 })
  | .groupBy cols =>
    let hs := appendMany h b.groupBy (cols.map Cell.cellStr)
    (hs.1, { b with groupBy := hs.2 })
  | .having col op v =>
    let hs := appendCell h b.having (.cellPred ⟨col, op, v, "AND"⟩)
    (hs.1, { b with having := hs.2 })
  | .limit n => (h, { b with limitVal := n })
  | .offset n => (h, { b with offsetVal := n })
  | .paginate page perPage =>
    let page2 := if page < 1 then 1 else page
    let perPage2 := if perPage < 1 then 10 else perPage
    (h, { b with limitVal := perPage2, offsetVal := (page2 - 1) * perPage2 })

/-- A whole configuration sequence. -/
def applyCalls (h : Heap) (b : BuilderS) : List ConfigCall → Heap × BuilderS
  | [] => (h, b)
  | c :: rest =>
    let hb := applyCall h b c
    applyCalls hb.1 hb.2 rest

/-- The backing-array ids a slice uses. -/
def idsOf : GoSlice → List Nat
  | .nilS => []
  | .ref id _ => [id]

/-- The backing-array ids a builder's slices use. -/
def bIds (b : BuilderS) : List Nat :=
  idsOf b.selectCols ++ idsOf b.whereConds ++ idsOf b.joins ++ idsOf b.orderBy ++
  idsOf b.groupBy ++ idsOf b.having ++ idsOf b.args

theorem validS_ref_eq (h : Heap) (id len : Nat) (a : GoArr) (hx : h[id]? = some a) :
    validS h (.ref id len) = (len ≤ a.data.length && a.data.length ≤ a.cap) := by
  simp [validS, hx]

theorem validS_ref_none (h : Heap) (id len : Nat) (hx : h[id]? = none) :
    validS h (.ref id len) = false := by
  simp [validS, hx]

theorem readSlice_ref_eq (h : Heap) (id len : Nat) (a : GoArr) (hx : h[id]? = some a) :
    readSlice h (.ref id len) = a.data.take len := by
  simp [readSlice, hx]

theorem validS_ref_lt (h : Heap) (id len : Nat)
    (hv : validS h (.ref id len) = true) : id < h.length := by
  cases hx : h[id]? with
  | none => rw [validS_ref_none h id len hx] at hv; exact absurd hv (by simp)
  | some a => exact (List.getElem?_eq_some.mp hx).1

theorem validS_ids_lt (h : Heap) (t : GoSlice) (hv : validS h t = true) :
    ∀ i ∈ idsOf t, i < h.length := by
  cases t with
  | nilS => intro i hi; simp [idsOf] at hi
  | ref aid alen =>
    intro i hi
    simp only [idsOf, List.mem_singleton] at hi
    subst hi
    exact validS_ref_lt h _ _ hv

theorem heap_ext_valid {h1 h2 : Heap} (e : ∃ ext, h2 = h1 ++ ext) (t : GoSlice)
    (hv : validS h1 t = true) : validS h2 t = true := by
  obtain ⟨ext, rfl⟩ := e
  cases t with
  | nilS => rfl
  | ref aid alen =>
    have hlt := validS_ref_lt h1 aid alen hv
    have happ : (h1 ++ ext)[aid]? = h1[aid]? := List.getElem?_append_left hlt
    cases hx : h1[aid]? with
    | none => rw [validS_ref_none h1 aid alen hx] at hv; exact absurd hv (by simp)
    | some a =>
      rw [validS_ref_eq (h1 ++ ext) aid alen a (by rw [happ, hx])]
      rw [validS_ref_eq h1 aid alen a hx] at hv
      exact hv

theorem heap_ext_read {h1 h2 : Heap} (e : ∃ ext, h2 = h1 ++ ext) (t : GoSlice)
    (hv : validS h1 t = true) : readSlice h2 t = readSlice h1 t := by
  obtain ⟨ext, rfl⟩ := e
  cases t with
  | nilS => rfl
  | ref aid alen =>
    have hlt := validS_ref_lt h1 aid alen hv
    have happ : (h1 ++ ext)[aid]? = h1[aid]? := List.getElem?_append_left hlt
    cases hx : h1[aid]? with
    | none => rw [validS_ref_none h1 aid alen hx] at hv; exact absurd hv (by simp)
    | some a =>
      rw [readSlice_ref_eq (h1 ++ ext) aid alen a (by rw [happ, hx]),
          readSlice_ref_eq h1 aid alen a hx]

theorem heap_ext_trans {h1 h2 h3 : Heap} (e1 : ∃ ext, h2 = h1 ++ ext)
    (e2 : ∃ ext, h3 = h2 ++ ext) : ∃ ext, h3 = h1 ++ ext := by
  obtain ⟨a, rfl⟩ := e1
  obtain ⟨c, rfl⟩ := e2
  exact ⟨a ++ c, by rw [List.append_assoc]⟩

theorem heap_ext_len {h1 h2 : Heap} (e : ∃ ext, h2 = h1 ++ ext) :
    h1.length ≤ h2.length := by
  obtain ⟨a, rfl⟩ := e
  simp

theorem allocCopy_spec (h : Heap) (xs : List Cell) :
    (∃ ext, (allocCopy h xs).1 = h ++ ext) ∧
    validS (allocCopy h xs).1 (allocCopy h xs).2 = true ∧
    idsOf (allocCopy h xs).2 = [h.length] ∧
    readSlice (allocCopy h xs).1 (allocCopy h xs).2 = xs := by
  refine ⟨⟨[⟨xs, xs.length⟩], rfl⟩, ?_, rfl, ?_⟩
  · show validS (h ++ [⟨xs, xs.length⟩]) (GoSlice.ref h.length xs.length) = true
    rw [validS_ref_eq _ _ _ ⟨xs, xs.length⟩ (List.getElem?_concat_length h _)]
    simp
  · show readSlice (h ++ [⟨xs, xs.length⟩]) (GoSlice.ref h.length xs.length) = xs
    rw [readSlice_ref_eq _ _ _ ⟨xs, xs.length⟩ (List.getElem?_concat_length h _)]
    simp

theorem appendCell_frame (h : Heap) (s : GoSlice) (x : Cell) (hs : validS h s = true)
    (h2 : Heap) (s2 : GoSlice) (heq : appendCell h s x = (h2, s2)) :
    validS h2 s2 = true ∧
    h.length ≤ h2.length ∧
    (∀ i, i ∈ idsOf s2 → i ∈ idsOf s ∨ h.length ≤ i) ∧
    (∀ t, validS h t = true → validS h2 t = true) ∧
    (∀ t, validS h t = true → (∀ i, i ∈ idsOf t → i ∉ idsOf s) →
      readSlice h2 t = readSlice h t) := by
  cases s with
  | nilS =>
    simp only [appendCell, Prod.mk.injEq] at heq
    obtain ⟨rfl, rfl⟩ := heq
    refine ⟨?_, by simp, ?_, fun t ht => heap_ext_valid ⟨_, rfl⟩ t ht,
      fun t ht _ => heap_ext_read ⟨_, rfl⟩ t ht⟩
    · rw [validS_ref_eq _ _ _ ⟨[x], 1⟩ (List.getElem?_concat_length h _)]
      simp
    · intro i hi
      simp only [idsOf, List.mem_singleton] at hi
      subst hi
      exact Or.inr (Nat.le_refl _)
  | ref aid alen =>
    cases hx : h[aid]? with
    | none =>
      rw [validS_ref_none h aid alen hx] at hs
      exact absurd hs (by simp)
    | some a =>
      rw [validS_ref_eq h aid alen a hx] at hs
      simp only [Bool.and_eq_true, decide_eq_true_eq] at hs
      obtain ⟨hlen, hcap⟩ := hs
      have haid : aid < h.length := (List.getElem?_eq_some.mp hx).1
      by_cases hlt : alen < a.cap
      · simp only [appendCell, hx, if_pos hlt, Prod.mk.injEq] at heq
        obtain ⟨rfl, rfl⟩ := heq
        have hget : (h.set aid
              ⟨a.data.take alen ++ [x] ++ a.data.drop (alen + 1), a.cap⟩)[aid]?
            = some ⟨a.data.take alen ++ [x] ++ a.data.drop (alen + 1), a.cap⟩ := by
          simp [List.getElem?_set_self, haid]
        have hlow : alen + 1 ≤ (a.data.take alen ++ [x] ++ a.data.drop (alen + 1)).length := by
          simp only [List.length_append, List.length_take, List.length_drop,
            Nat.min_eq_left hlen, List.length_singleton]
          omega
        have hup : (a.data.take alen ++ [x] ++ a.data.drop (alen + 1)).length ≤ a.cap := by
          simp only [List.length_append, List.length_take, List.length_drop,
            Nat.min_eq_left hlen, List.length_singleton]
          omega
        have hmono : a.data.length
            ≤ (a.data.take alen ++ [x] ++ a.data.drop (alen + 1)).length := by
          simp only [List.length_append, List.length_take, List.length_drop,
            Nat.min_eq_left hlen, List.length_singleton]
          omega
        refine ⟨?_, by simp, ?_, ?_, ?_⟩
        · rw [validS_ref_eq _ _ _ _ hget]
          simp only [Bool.and_eq_true, decide_eq_true_eq]
          exact ⟨hlow, hup⟩
        · intro i hi
          simp only [idsOf, List.mem_singleton] at hi
          subst hi
          exact Or.inl (by simp [idsOf])
        · intro t ht
          cases t with
          | nilS => rfl
          | ref tid tlen =>
            by_cases htid : tid = aid
            · subst htid
              rw [validS_ref_eq h tid tlen a hx] at ht
              simp only [Bool.and_eq_true, decide_eq_true_eq] at ht
              rw [validS_ref_eq _ _ _ _ hget]
              simp only [Bool.and_eq_true, decide_eq_true_eq]
              exact ⟨Nat.le_trans ht.1 hmono, hup⟩
            · have hset : (h.set aid
                    ⟨a.data.take alen ++ [x] ++ a.data.drop (alen + 1), a.cap⟩)[tid]?
                  = h[tid]? :=
                List.getElem?_set_ne (fun hh => htid hh.symm)
              cases hx2 : h[tid]? with
              | none =>
                rw [validS_ref_none h tid tlen hx2] at ht
                exact absurd ht (by simp)
              | some a3 =>
                rw [validS_ref_eq _ _ _ a3 (by rw [hset, hx2])]
                rw [validS_ref_eq h tid tlen a3 hx2] at ht
                exact ht
        · intro t ht hdisj
          cases t with
          | nilS => rfl
          | ref tid tlen =>
            have htid : ¬ tid = aid := by
              intro hh
              exact hdisj tid (by simp [idsOf]) (by simp [idsOf, hh])
            have hset : (h.set aid
                  ⟨a.data.take alen ++ [x] ++ a.data.drop (alen + 1), a.cap⟩)[tid]?
                = h[tid]? :=
              List.getElem?_set_ne (fun hh => htid hh.symm)
            cases hx2 : h[tid]? with
            | none =>
              rw [validS_ref_none h tid tlen hx2] at ht
              exact absurd ht (by simp)
            | some a3 =>
              rw [readSlice_ref_eq _ _ _ a3 (by rw [hset, hx2]),
                  readSlice_ref_eq h tid tlen a3 hx2]
      · simp only [appendCell, hx, if_neg hlt, Prod.mk.injEq] at heq
        obtain ⟨rfl, rfl⟩ := heq
        refine ⟨?_, by simp, ?_, fun t ht => heap_ext_valid ⟨_, rfl⟩ t ht,
          fun t ht _ => heap_ext_read ⟨_, rfl⟩ t ht⟩
        · rw [validS_ref_eq _ _ _ ⟨a.data.take alen ++ [x], 2 * alen + 2⟩
            (List.getElem?_concat_length h _)]
          simp only [Bool.and_eq_true, decide_eq_true_eq, List.length_append,
            List.length_take]
          have : min alen a.data.length = alen := Nat.min_eq_left hlen
          simp only [this, List.length_singleton]
          omega
        · intro i hi
          simp only [idsOf, List.mem_singleton] at hi
          subst hi
          exact Or.inr (Nat.le_refl _)

theorem appendMany_frame (xs : List Cell) (h : Heap) (s : GoSlice)
    (hs : validS h s = true) (h2 : Heap) (s2 : GoSlice)
    (heq : appendMany h s xs = (h2, s2)) :
    validS h2 s2 = true ∧
    h.length ≤ h2.length ∧
    (∀ i, i ∈ idsOf s2 → i ∈ idsOf s ∨ h.length ≤ i) ∧
    (∀ t, validS h t = true → validS h2 t = true) ∧
    (∀ t, validS h t = true → (∀ i, i ∈ idsOf t → i ∉ idsOf s) →
      readSlice h2 t = readSlice h t) := by
  induction xs generalizing h s with
  | nil =>
    simp only [appendMany, Prod.mk.injEq] at heq
    obtain ⟨rfl, rfl⟩ := heq
    exact ⟨hs, Nat.le_refl _, fun i hi => Or.inl hi, fun t ht => ht, fun t ht _ => rfl⟩
  | cons x rest ih =>
    obtain ⟨v1, l1, i1, p1, r1⟩ :=
      appendCell_frame h s x hs (appendCell h s x).1 (appendCell h s x).2 rfl
    have heq2 : appendMany (appendCell h s x).1 (appendCell h s x).2 rest = (h2, s2) := heq
    obtain ⟨v2, l2, i2, p2, r2⟩ := ih (appendCell h s x).1 (appendCell h s x).2 v1 heq2
    refine ⟨v2, Nat.le_trans l1 l2, ?_, fun t ht => p2 t (p1 t ht), ?_⟩
    · intro i hi
      rcases i2 i hi with hin | hge
      · rcases i1 i hin with hin2 | hge2
        · exact Or.inl hin2
        · exact Or.inr hge2
      · exact Or.inr (Nat.le_trans l1 hge)
    · intro t ht hdisj
      have ht2 := p1 t ht
      have hd2 : ∀ i, i ∈ idsOf t → i ∉ idsOf (appendCell h s x).2 := by
        intro i hit hia
        rcases i1 i hia with hin | hge
        · exact hdisj i hit hin
        · have := validS_ids_lt h t ht i hit
          omega
      rw [r2 t ht2 hd2, r1 t ht hdisj]

theorem allocCopy_frame (h : Heap) (xs : List Cell) :
    validS (allocCopy h xs).1 (allocCopy h xs).2 = true ∧
    h.length ≤ (allocCopy h xs).1.length ∧
    (∀ i, i ∈ idsOf (allocCopy h xs).2 → h.length ≤ i) ∧
    (∀ t, validS h t = true → validS (allocCopy h xs).1 t = true) ∧
    (∀ t, validS h t = true → readSlice (allocCopy h xs).1 t = readSlice h t) := by
  obtain ⟨he, hv, hi, _⟩ := allocCopy_spec h xs
  refine ⟨hv, heap_ext_len he, ?_, fun t ht => heap_ext_valid he t ht,
    fun t ht => heap_ext_read he t ht⟩
  intro i hmem
  rw [hi] at hmem
  simp only [List.mem_singleton] at hmem
  exact Nat.le_of_eq hmem.symm

theorem validB_iff (h : Heap) (b : BuilderS) :
    validB h b = true ↔
      validS h b.selectCols = true ∧ validS h b.whereConds = true ∧
      validS h b.joins = true ∧ validS h b.orderBy = true ∧
      validS h b.groupBy = true ∧ validS h b.having = true ∧
      validS h b.args = true := by
  simp [validB, Bool.and_eq_true, and_assoc]

theorem mem_bIds (b : BuilderS) (i : Nat) :
    i ∈ bIds b ↔
      i ∈ idsOf b.selectCols ∨ i ∈ idsOf b.whereConds ∨ i ∈ idsOf b.joins ∨
      i ∈ idsOf b.orderBy ∨ i ∈ idsOf b.groupBy ∨ i ∈ idsOf b.having ∨
      i ∈ idsOf b.args := by
  simp [bIds, List.mem_append, or_assoc]

theorem bIds_lt (h : Heap) (b : BuilderS) (hv : validB h b = true) :
    ∀ i ∈ bIds b, i < h.length := by
  obtain ⟨v1, v2, v3, v4, v5, v6, v7⟩ := (validB_iff h b).mp hv
  intro i hi
  rcases (mem_bIds b i).mp hi with h1 | h1 | h1 | h1 | h1 | h1 | h1
  · exact validS_ids_lt h _ v1 i h1
  · exact validS_ids_lt h _ v2 i h1
  · exact validS_ids_lt h _ v3 i h1
  · exact validS_ids_lt h _ v4 i h1
  · exact validS_ids_lt h _ v5 i h1
  · exact validS_ids_lt h _ v6 i h1
  · exact validS_ids_lt h _ v7 i h1

theorem frame_c (h h2 : Heap) (c : BuilderS) (S : List Nat)
    (hpres : ∀ t, validS h t = true → validS h2 t = true)
    (hread : ∀ t, validS h t = true → (∀ i, i ∈ idsOf t → i ∉ S) →
       readSlice h2 t = readSlice h t)
    (hc : validB h c = true)
    (hdisj : ∀ i, i ∈ bIds c → i ∉ S) :
    validB h2 c = true ∧ viewB h2 c = viewB h c := by
  obtain ⟨v1, v2, v3, v4, v5, v6, v7⟩ := (validB_iff h c).mp hc
  refine ⟨(validB_iff h2 c).mpr ⟨hpres _ v1, hpres _ v2, hpres _ v3, hpres _ v4,
    hpres _ v5, hpres _ v6, hpres _ v7⟩, ?_⟩
  have r1 := hread _ v1 (fun i hi => hdisj i ((mem_bIds c i).mpr (Or.inl hi)))
  have r2 := hread _ v2 (fun i hi => hdisj i ((mem_bIds c i).mpr (Or.inr (Or.inl hi))))
  have r3 := hread _ v3
    (fun i hi => hdisj i ((mem_bIds c i).mpr (Or.inr (Or.inr (Or.inl hi)))))
  have r4 := hread _ v4
    (fun i hi => hdisj i ((mem_bIds c i).mpr (Or.inr (Or.inr (Or.inr (Or.inl hi))))))
  have r5 := hread _ v5
    (fun i hi => hdisj i
      ((mem_bIds c i).mpr (Or.inr (Or.inr (Or.inr (Or.inr (Or.inl hi)))))))
  have r6 := hread _ v6
    (fun i hi => hdisj i
      ((mem_bIds c i).mpr (Or.inr (Or.inr (Or.inr (Or.inr (Or.inr (Or.inl hi))))))))
  have r7 := hread _ v7
    (fun i hi => hdisj i
      ((mem_bIds c i).mpr (Or.inr (Or.inr (Or.inr (Or.inr (Or.inr (Or.inr hi))))))))
  simp [viewB, r1, r2, r3, r4, r5, r6, r7]

theorem frameWhere (h : Heap) (b c : BuilderS) (cell : Cell)
    (hb : validB h b = true) (hc : validB h c = true)
    (hd : ∀ i, i ∈ bIds b → i ∉ bIds c) :
    validB (appendCell h b.whereConds cell).1 { b with whereConds := (appendCell h b.whereConds cell).2 } = true ∧
    validB (appendCell h b.whereConds cell).1 c = true ∧
    (∀ i, i ∈ bIds { b with whereConds := (appendCell h b.whereConds cell).2 } → i ∉ bIds c) ∧
    viewB (appendCell h b.whereConds cell).1 c = viewB h c := by
  obtain ⟨b1, b2, b3, b4, b5, b6, b7⟩ := (validB_iff h b).mp hb
  obtain ⟨v1, l1, i1, p1, r1⟩ := appendCell_frame h b.whereConds cell b2 _ _ rfl
  have hds : ∀ i, i ∈ bIds c → i ∉ idsOf b.whereConds :=
    fun i hic hiw => hd i ((mem_bIds b i).mpr (Or.inr (Or.inl hiw))) hic
  obtain ⟨hcv, hcview⟩ := frame_c h _ c (idsOf b.whereConds) p1 r1 hc hds
  refine ⟨?_, hcv, ?_, hcview⟩
  · exact (validB_iff _ _).mpr ⟨p1 _ b1, v1, p1 _ b3, p1 _ b4, p1 _ b5, p1 _ b6, p1 _ b7⟩
  · intro i hi hic
    have hlt := bIds_lt h c hc i hic
    rcases (mem_bIds _ i).mp hi with h1 | h1 | h1 | h1 | h1 | h1 | h1
    · exact hd i ((mem_bIds b i).mpr (Or.inl h1)) hic
    · rcases i1 i h1 with hin | hge
      · exact hd i ((mem_bIds b i).mpr (Or.inr (Or.inl hin))) hic
      · omega
    · exact hd i ((mem_bIds b i).mpr (Or.inr (Or.inr (Or.inl h1)))) hic
    · exact hd i ((mem_bIds b i).mpr (Or.inr (Or.inr (Or.inr (Or.inl h1))))) hic
    · exact hd i ((mem_bIds b i).mpr (Or.inr (Or.inr (Or.inr (Or.inr (Or.inl h1)))))) hic
    · exact hd i ((mem_bIds b i).mpr (Or.inr (Or.inr (Or.inr (Or.inr (Or.inr (Or.inl h1))))))) hic
    · exact hd i ((mem_bIds b i).mpr (Or.inr (Or.inr (Or.inr (Or.inr (Or.inr (Or.inr h1))))))) hic

theorem frameJoins (h : Heap) (b c : BuilderS) (cell : Cell)
    (hb : validB h b = true) (hc : validB h c = true)
    (hd : ∀ i, i ∈ bIds b → i ∉ bIds c) :
    validB (appendCell h b.joins cell).1 { b with joins := (appendCell h b.joins cell).2 } = true ∧
    validB (appendCell h b.joins cell).1 c = true ∧
    (∀ i, i ∈ bIds { b with joins := (appendCell h b.joins cell).2 } → i ∉ bIds c) ∧
    viewB (appendCell h b.joins cell).1 c = viewB h c := by
  obtain ⟨b1, b2, b3, b4, b5, b6, b7⟩ := (validB_iff h b).mp hb
  obtain ⟨v1, l1, i1, p1, r1⟩ := appendCell_frame h b.joins cell b3 _ _ rfl
  have hds : ∀ i, i ∈ bIds c → i ∉ idsOf b.joins :=
    fun i hic hiw => hd i ((mem_bIds b i).mpr (Or.inr (Or.inr (Or.inl hiw)))) hic
  obtain ⟨hcv, hcview⟩ := frame_c h _ c (idsOf b.joins) p1 r1 hc hds
  refine ⟨?_, hcv, ?_, hcview⟩
  · exact (validB_iff _ _).mpr ⟨p1 _ b1, p1 _ b2, v1, p1 _ b4, p1 _ b5, p1 _ b6, p1 _ b7⟩
  · intro i hi hic
    have hlt := bIds_lt h c hc i hic
    rcases (mem_bIds _ i).mp hi with h1 | h1 | h1 | h1 | h1 | h1 | h1
    · exact hd i ((mem_bIds b i).mpr (Or.inl h1)) hic
    · exact hd i ((mem_bIds b i).mpr (Or.inr (Or.inl h1))) hic
    · rcases i1 i h1 with hin | hge
      · exact hd i ((mem_bIds b i).mpr (Or.inr (Or.inr (Or.inl hin)))) hic
      · omega
    · exact hd i ((mem_bIds b i).mpr (Or.inr (Or.inr (Or.inr (Or.inl h1))))) hic
    · exact hd i ((mem_bIds b i).mpr (Or.inr (Or.inr (Or.inr (Or.inr (Or.inl h1)))))) hic
    · exact hd i ((mem_bIds b i).mpr (Or.inr (Or.inr (Or.inr (Or.inr (Or.inr (Or.inl h1))))))) hic
    · exact hd i ((mem_bIds b i).mpr (Or.inr (Or.inr (Or.inr (Or.inr (Or.inr (Or.inr h1))))))) hic

theorem frameOrder (h : Heap) (b c : BuilderS) (cell : Cell)
    (hb : validB h b = true) (hc : validB h c = true)
    (hd : ∀ i, i ∈ bIds b → i ∉ bIds c) :
    validB (appendCell h b.orderBy cell).1 { b with orderBy := (appendCell h b.orderBy cell).2 } = true ∧
    validB (appendCell h b.orderBy cell).1 c = true ∧
    (∀ i, i ∈ bIds { b with orderBy := (appendCell h b.orderBy cell).2 } → i ∉ bIds c) ∧
    viewB (appendCell h b.orderBy cell).1 c = viewB h c := by
  obtain ⟨b1, b2, b3, b4, b5, b6, b7⟩ := (validB_iff h b).mp hb
  obtain ⟨v1, l1, i1, p1, r1⟩ := appendCell_frame h b.orderBy cell b4 _ _ rfl
  have hds : ∀ i, i ∈ bIds c → i ∉ idsOf b.orderBy :=
    fun i hic hiw => hd i ((mem_bIds b i).mpr (Or.inr (Or.inr (Or.inr (Or.inl hiw))))) hic
  obtain ⟨hcv, hcview⟩ := frame_c h _ c (idsOf b.orderBy) p1 r1 hc hds
  refine ⟨?_, hcv, ?_, hcview⟩
  · exact (validB_iff _ _).mpr ⟨p1 _ b1, p1 _ b2, p1 _ b3, v1, p1 _ b5, p1 _ b6, p1 _ b7⟩
  · intro i hi hic
    have hlt := bIds_lt h c hc i hic
    rcases (mem_bIds _ i).mp hi with h1 | h1 | h1 | h1 | h1 | h1 | h1
    · exact hd i ((mem_bIds b i).mpr (Or.inl h1)) hic
    · exact hd i ((mem_bIds b i).mpr (Or.inr (Or.inl h1))) hic
    · exact hd i ((mem_bIds b i).mpr (Or.inr (Or.inr (Or.inl h1)))) hic
    · rcases i1 i h1 with hin | hge
      · exact hd i ((mem_bIds b i).mpr (Or.inr (Or.inr (Or.inr (Or.inl hin))))) hic
      · omega
    · exact hd i ((mem_bIds b i).mpr (Or.inr (Or.inr (Or.inr (Or.inr (Or.inl h1)))))) hic
    · exact hd i ((mem_bIds b i).mpr (Or.inr (Or.inr (Or.inr (Or.inr (Or.inr (Or.inl h1))))))) hic
    · exact hd i ((mem_bIds b i).mpr (Or.inr (Or.inr (Or.inr (Or.inr (Or.inr (Or.inr h1))))))) hic

theorem frameHaving (h : Heap) (b c : BuilderS) (cell : Cell)
    (hb : validB h b = true) (hc : validB h c = true)
    (hd : ∀ i, i ∈ bIds b → i ∉ bIds c) :
    validB (appendCell h b.having cell).1 { b with having := (appendCell h b.having cell).2 } = true ∧
    validB (appendCell h b.having cell).1 c = true ∧
    (∀ i, i ∈ bIds { b with having := (appendCell h b.having cell).2 } → i ∉ bIds c) ∧
    viewB (appendCell h b.having cell).1 c = viewB h c := by
  obtain ⟨b1, b2, b3, b4, b5, b6, b7⟩ := (validB_iff h b).mp hb
  obtain ⟨v1, l1, i1, p1, r1⟩ := appendCell_frame h b.having cell b6 _ _ rfl
  have hds : ∀ i, i ∈ bIds c → i ∉ idsOf b.having :=
    fun i hic hiw => hd i ((mem_bIds b i).mpr (Or.inr (Or.inr (Or.inr (Or.inr (Or.inr (Or.inl hiw))))))) hic
  obtain ⟨hcv, hcview⟩ := frame_c h _ c (idsOf b.having) p1 r1 hc hds
  refine ⟨?_, hcv, ?_, hcview⟩
  · exact (validB_iff _ _).mpr ⟨p1 _ b1, p1 _ b2, p1 _ b3, p1 _ b4, p1 _ b5, v1, p1 _ b7⟩
  · intro i hi hic
    have hlt := bIds_lt h c hc i hic
    rcases (mem_bIds _ i).mp hi with h1 | h1 | h1 | h1 | h1 | h1 | h1
    · exact hd i ((mem_bIds b i).mpr (Or.inl h1)) hic
    · exact hd i ((mem_bIds b i).mpr (Or.inr (Or.inl h1))) hic
    · exact hd i ((mem_bIds b i).mpr (Or.inr (Or.inr (Or.inl h1)))) hic
    · exact hd i ((mem_bIds b i).mpr (Or.inr (Or.inr (Or.inr (Or.inl h1))))) hic
    · exact hd i ((mem_bIds b i).mpr (Or.inr (Or.inr (Or.inr (Or.inr (Or.inl h1)))))) hic
    · rcases i1 i h1 with hin | hge
      · exact hd i ((mem_bIds b i).mpr (Or.inr (Or.inr (Or.inr (Or.inr (Or.inr (Or.inl hin))))))) hic
      · omega
    · exact hd i ((mem_bIds b i).mpr (Or.inr (Or.inr (Or.inr (Or.inr (Or.inr (Or.inr h1))))))) hic

theorem frameGroup (h : Heap) (b c : BuilderS) (xs : List Cell)
    (hb : validB h b = true) (hc : validB h c = true)
    (hd : ∀ i, i ∈ bIds b → i ∉ bIds c) :
    validB (appendMany h b.groupBy xs).1 { b with groupBy := (appendMany h b.groupBy xs).2 } = true ∧
    validB (appendMany h b.groupBy xs).1 c = true ∧
    (∀ i, i ∈ bIds { b with groupBy := (appendMany h b.groupBy xs).2 } → i ∉ bIds c) ∧
    viewB (appendMany h b.groupBy xs).1 c = viewB h c := by
  obtain ⟨b1, b2, b3, b4, b5, b6, b7⟩ := (validB_iff h b).mp hb
  obtain ⟨v1, l1, i1, p1, r1⟩ := appendMany_frame xs h b.groupBy b5 _ _ rfl
  have hds : ∀ i, i ∈ bIds c → i ∉ idsOf b.groupBy :=
    fun i hic hiw => hd i ((mem_bIds b i).mpr (Or.inr (Or.inr (Or.inr (Or.inr (Or.inl hiw)))))) hic
  obtain ⟨hcv, hcview⟩ := frame_c h _ c (idsOf b.groupBy) p1 r1 hc hds
  refine ⟨?_, hcv, ?_, hcview⟩
  · exact (validB_iff _ _).mpr ⟨p1 _ b1, p1 _ b2, p1 _ b3, p1 _ b4, v1, p1 _ b6, p1 _ b7⟩
  · intro i hi hic
    have hlt := bIds_lt h c hc i hic
    rcases (mem_bIds _ i).mp hi with h1 | h1 | h1 | h1 | h1 | h1 | h1
    · exact hd i ((mem_bIds b i).mpr (Or.inl h1)) hic
    · exact hd i ((mem_bIds b i).mpr (Or.inr (Or.inl h1))) hic
    · exact hd i ((mem_bIds b i).mpr (Or.inr (Or.inr (Or.inl h1)))) hic
    · exact hd i ((mem_bIds b i).mpr (Or.inr (Or.inr (Or.inr (Or.inl h1))))) hic
    · rcases i1 i h1 with hin | hge
      · exact hd i ((mem_bIds b i).mpr (Or.inr (Or.inr (Or.inr (Or.inr (Or.inl hin)))))) hic
      · omega
    · exact hd i ((mem_bIds b i).mpr (Or.inr (Or.inr (Or.inr (Or.inr (Or.inr (Or.inl h1))))))) hic
    · exact hd i ((mem_bIds b i).mpr (Or.inr (Or.inr (Or.inr (Or.inr (Or.inr (Or.inr h1))))))) hic

theorem frameSelect (h : Heap) (b c : BuilderS) (xs : List Cell)
    (hb : validB h b = true) (hc : validB h c = true)
    (hd : ∀ i, i ∈ bIds b → i ∉ bIds c) :
    validB (allocCopy h xs).1 { b with selectCols := (allocCopy h xs).2 } = true ∧
    validB (allocCopy h xs).1 c = true ∧
    (∀ i, i ∈ bIds { b with selectCols := (allocCopy h xs).2 } → i ∉ bIds c) ∧
    viewB (allocCopy h xs).1 c = viewB h c := by
  obtain ⟨b1, b2, b3, b4, b5, b6, b7⟩ := (validB_iff h b).mp hb
  obtain ⟨v1, l1, i1, p1, r1⟩ := allocCopy_frame h xs
  obtain ⟨hcv, hcview⟩ := frame_c h _ c [] p1 (fun t ht _ => r1 t ht) hc
    (fun i _ hmem => by simp at hmem)
  refine ⟨?_, hcv, ?_, hcview⟩
  · exact (validB_iff _ _).mpr ⟨v1, p1 _ b2, p1 _ b3, p1 _ b4, p1 _ b5, p1 _ b6, p1 _ b7⟩
  · intro i hi hic
    have hlt := bIds_lt h c hc i hic
    rcases (mem_bIds _ i).mp hi with h1 | h1 | h1 | h1 | h1 | h1 | h1
    · have hge := i1 i h1
      omega
    · exact hd i ((mem_bIds b i).mpr (Or.inr (Or.inl h1))) hic
    · exact hd i ((mem_bIds b i).mpr (Or.inr (Or.inr (Or.inl h1)))) hic
    · exact hd i ((mem_bIds b i).mpr (Or.inr (Or.inr (Or.inr (Or.inl h1))))) hic
    · exact hd i ((mem_bIds b i).mpr (Or.inr (Or.inr (Or.inr (Or.inr (Or.inl h1)))))) hic
    · exact hd i
        ((mem_bIds b i).mpr (Or.inr (Or.inr (Or.inr (Or.inr (Or.inr (Or.inl h1))))))) hic
    · exact hd i
        ((mem_bIds b i).mpr (Or.inr (Or.inr (Or.inr (Or.inr (Or.inr (Or.inr h1))))))) hic

theorem applyCall_frame (h : Heap) (b c : BuilderS) (op : ConfigCall)
    (hb : validB h b = true) (hc : validB h c = true)
    (hd : ∀ i, i ∈ bIds b → i ∉ bIds c) :
    validB (applyCall h b op).1 (applyCall h b op).2 = true ∧
    validB (applyCall h b op).1 c = true ∧
    (∀ i, i ∈ bIds (applyCall h b op).2 → i ∉ bIds c) ∧
    viewB (applyCall h b op).1 c = viewB h c := by
  cases op with
  | table t => exact ⟨hb, hc, hd, rfl⟩
  | selectCols cols => exact frameSelect h b c (cols.map Cell.cellStr) hb hc hd
  | whereC col op2 v => exact frameWhere h b c _ hb hc hd
  | orWhere col op2 v => exact frameWhere h b c _ hb hc hd
  | whereIn col vs =>
    by_cases h0 : vs.length > 0
    · have heq : applyCall h b (ConfigCall.whereIn col vs) =
          ((appendCell h b.whereConds (Cell.cellPred ⟨col,
              "IN (" ++ String.intercalate "," (vs.map fun _ => "?") ++ ")",
              GoVal.vlist vs, "AND"⟩)).1,
           { b with whereConds := (appendCell h b.whereConds (Cell.cellPred ⟨col,
              "IN (" ++ String.intercalate "," (vs.map fun _ => "?") ++ ")",
              GoVal.vlist vs, "AND"⟩)).2 }) := by
        simp only [applyCall, if_pos h0]
      rw [heq]
      exact frameWhere h b c _ hb hc hd
    · have heq : applyCall h b (ConfigCall.whereIn col vs) = (h, b) := by
        simp only [applyCall, if_neg h0]
      rw [heq]
      exact ⟨hb, hc, hd, rfl⟩
  | whereNull col => exact frameWhere h b c _ hb hc hd
  | whereNotNull col => exact frameWhere h b c _ hb hc hd
  | leftJoin t cnd => exact frameJoins h b c _ hb hc hd
  | rightJoin t cnd => exact frameJoins h b c _ hb hc hd
  | innerJoin t cnd => exact frameJoins h b c _ hb hc hd
  | orderBy col dir => exact frameOrder h b c _ hb hc hd
  | groupBy cols => exact frameGroup h b c (cols.map Cell.cellStr) hb hc hd
  | having col op2 v => exact frameHaving h b c _ hb hc hd
  | limit n => exact ⟨hb, hc, hd, rfl⟩
  | offset n => exact ⟨hb, hc, hd, rfl⟩
  | paginate p pp => exact ⟨hb, hc, hd, rfl⟩

theorem applyCalls_frame (calls : List ConfigCall) (h : Heap) (b c : BuilderS)
    (hb : validB h b = true) (hc : validB h c = true)
    (hd : ∀ i, i ∈ bIds b → i ∉ bIds c) :
    validB (applyCalls h b calls).1 (applyCalls h b calls).2 = true ∧
    validB (applyCalls h b calls).1 c = true ∧
    (∀ i, i ∈ bIds (applyCalls h b calls).2 → i ∉ bIds c) ∧
    viewB (applyCalls h b calls).1 c = viewB h c := by
  induction calls generalizing h b with
  | nil => exact ⟨hb, hc, hd, rfl⟩
  | cons op rest ih =>
    obtain ⟨k1, k2, k3, k4⟩ := applyCall_frame h b c op hb hc hd
    obtain ⟨m1, m2, m3, m4⟩ := ih (applyCall h b op).1 (applyCall h b op).2 k1 k2 k3
    exact ⟨m1, m2, m3, m4.trans k4⟩

theorem clonePiece_spec (h : Heap) (s : GoSlice) :
    (∃ ext, (clonePiece h s).1 = h ++ ext) ∧
    validS (clonePiece h s).1 (clonePiece h s).2 = true ∧
    (∀ i, i ∈ idsOf (clonePiece h s).2 → h.length ≤ i) := by
  by_cases h0 : 0 < sliceLen s
  · simp only [clonePiece, if_pos h0]
    obtain ⟨he, hv, hi, _⟩ := allocCopy_spec h (readSlice h s)
    refine ⟨he, hv, ?_⟩
    intro i hmem
    rw [hi] at hmem
    simp only [List.mem_singleton] at hmem
    exact Nat.le_of_eq hmem.symm
  · simp only [clonePiece, if_neg h0]
    exact ⟨⟨[], by simp⟩, rfl, fun i hmem => by simp [idsOf] at hmem⟩

theorem cloneSelect_spec (h : Heap) (s : GoSlice) :
    (∃ ext, (cloneSelect h s).1 = h ++ ext) ∧
    validS (cloneSelect h s).1 (cloneSelect h s).2 = true ∧
    (∀ i, i ∈ idsOf (cloneSelect h s).2 → h.length ≤ i) := by
  by_cases h0 : 0 < sliceLen s
  · simp only [cloneSelect, if_pos h0]
    obtain ⟨he, hv, hi, _⟩ := allocCopy_spec h (readSlice h s)
    refine ⟨he, hv, ?_⟩
    intro i hmem
    rw [hi] at hmem
    simp only [List.mem_singleton] at hmem
    exact Nat.le_of_eq hmem.symm
  · simp only [cloneSelect, if_neg h0]
    obtain ⟨he, hv, hi, _⟩ := allocCopy_spec h [Cell.cellStr "*"]
    refine ⟨he, hv, ?_⟩
    intro i hmem
    rw [hi] at hmem
    simp only [List.mem_singleton] at hmem
    exact Nat.le_of_eq hmem.symm

theorem cloneArgs_spec (h : Heap) (s : GoSlice) :
    (∃ ext, (cloneArgs h s).1 = h ++ ext) ∧
    validS (cloneArgs h s).1 (cloneArgs h s).2 = true ∧
    (∀ i, i ∈ idsOf (cloneArgs h s).2 → h.length ≤ i) := by
  by_cases h0 : 0 < sliceLen s
  · simp only [cloneArgs, if_pos h0]
    obtain ⟨he, hv, hi, _⟩ := allocCopy_spec h (readSlice h s)
    refine ⟨he, hv, ?_⟩
    intro i hmem
    rw [hi] at hmem
    simp only [List.mem_singleton] at hmem
    exact Nat.le_of_eq hmem.symm
  · simp only [cloneArgs, if_neg h0]
    obtain ⟨he, hv, hi, _⟩ := allocCopy_spec h []
    refine ⟨he, hv, ?_⟩
    intro i hmem
    rw [hi] at hmem
    simp only [List.mem_singleton] at hmem
    exact Nat.le_of_eq hmem.symm

theorem cloneS_spec (h : Heap) (b : BuilderS) (hb : validB h b = true) :
    validB (cloneS h b).1 b = true ∧
    validB (cloneS h b).1 (cloneS h b).2 = true ∧
    (∀ i, i ∈ bIds b → i ∉ bIds (cloneS h b).2) ∧
    viewB (cloneS h b).1 b = viewB h b ∧
    (cloneS h b).2.db = b.db ∧ (cloneS h b).2.tx = b.tx := by
  simp only [cloneS]
  set q1 := cloneSelect h b.selectCols with hq1
  set q2 := clonePiece q1.1 b.whereConds with hq2
  set q3 := clonePiece q2.1 b.joins with hq3
  set q4 := clonePiece q3.1 b.orderBy with hq4
  set q5 := clonePiece q4.1 b.groupBy with hq5
  set q6 := clonePiece q5.1 b.having with hq6
  set q7 := cloneArgs q6.1 b.args with hq7
  obtain ⟨e1, v1, i1⟩ := cloneSelect_spec h b.selectCols
  obtain ⟨e2, v2, i2⟩ := clonePiece_spec q1.1 b.whereConds
  obtain ⟨e3, v3, i3⟩ := clonePiece_spec q2.1 b.joins
  obtain ⟨e4, v4, i4⟩ := clonePiece_spec q3.1 b.orderBy
  obtain ⟨e5, v5, i5⟩ := clonePiece_spec q4.1 b.groupBy
  obtain ⟨e6, v6, i6⟩ := clonePiece_spec q5.1 b.having
  obtain ⟨e7, v7, i7⟩ := cloneArgs_spec q6.1 b.args
  rw [← hq1] at e1 v1 i1
  rw [← hq2] at e2 v2 i2
  rw [← hq3] at e3 v3 i3
  rw [← hq4] at e4 v4 i4
  rw [← hq5] at e5 v5 i5
  rw [← hq6] at e6 v6 i6
  rw [← hq7] at e7 v7 i7
  have c6 : ∃ ext, q7.1 = q6.1 ++ ext := e7
  have c5 : ∃ ext, q7.1 = q5.1 ++ ext := heap_ext_trans e6 c6
  have c4 : ∃ ext, q7.1 = q4.1 ++ ext := heap_ext_trans e5 c5
  have c3 : ∃ ext, q7.1 = q3.1 ++ ext := heap_ext_trans e4 c4
  have c2 : ∃ ext, q7.1 = q2.1 ++ ext := heap_ext_trans e3 c3
  have c1 : ∃ ext, q7.1 = q1.1 ++ ext := heap_ext_trans e2 c2
  have c0 : ∃ ext, q7.1 = h ++ ext := heap_ext_trans e1 c1
  have L1 : h.length ≤ q1.1.length := heap_ext_len e1
  have L2 : h.length ≤ q2.1.length := Nat.le_trans L1 (heap_ext_len e2)
  have L3 : h.length ≤ q3.1.length := Nat.le_trans L2 (heap_ext_len e3)
  have L4 : h.length ≤ q4.1.length := Nat.le_trans L3 (heap_ext_len e4)
  have L5 : h.length ≤ q5.1.length := Nat.le_trans L4 (heap_ext_len e5)
  have L6 : h.length ≤ q6.1.length := Nat.le_trans L5 (heap_ext_len e6)
  obtain ⟨hvalb, hviewb⟩ := frame_c h q7.1 b [] (fun t ht => heap_ext_valid c0 t ht)
    (fun t ht _ => heap_ext_read c0 t ht) hb (fun i _ hmem => by simp at hmem)
  refine ⟨hvalb, ?_, ?_, hviewb, by trivial, by trivial⟩
  · exact (validB_iff _ _).mpr ⟨heap_ext_valid c1 _ v1, heap_ext_valid c2 _ v2,
      heap_ext_valid c3 _ v3, heap_ext_valid c4 _ v4, heap_ext_valid c5 _ v5,
      heap_ext_valid c6 _ v6, v7⟩
  · intro i hib hic
    have hlt : i < h.length := bIds_lt h b hb i hib
    rcases (mem_bIds _ i).mp hic with h1 | h1 | h1 | h1 | h1 | h1 | h1
    · have := i1 i h1
      omega
    · have := i2 i h1
      omega
    · have := i3 i h1
      omega
    · have := i4 i h1
      omega
    · have := i5 i h1
      omega
    · have := i6 i h1
      omega
    · have := i7 i h1
      omega

/-- Claim C3: for every valid builder, `Clone` produces a builder sharing
only the executor references (`db` and the transaction) with the source;
for EVERY sequence of configuration calls applied afterwards, mutating the
clone never changes the source builder's observable state, and mutating
the source never changes the clone's observable state (slice mutation is
modelled with explicit backing arrays, so in-place `append` writes through
aliases are accounted for). -/
theorem C3_clone_independence (h : Heap) (b : BuilderS)
    (calls calls2 : List ConfigCall) (hb : validB h b = true) :
    ((cloneS h b).2.db = b.db ∧ (cloneS h b).2.tx = b.tx) ∧
    viewB (applyCalls (cloneS h b).1 (cloneS h b).2 calls).1 b = viewB h b ∧
    viewB (applyCalls (cloneS h b).1 b calls2).1 (cloneS h b).2
      = viewB (cloneS h b).1 (cloneS h b).2 := by
  obtain ⟨cb, cc, cdisj, cview, cdb, ctx⟩ := cloneS_spec h b hb
  refine ⟨⟨cdb, ctx⟩, ?_, ?_⟩
  · have hd2 : ∀ i, i ∈ bIds (cloneS h b).2 → i ∉ bIds b := by
      intro i hic hibb
      exact cdisj i hibb hic
    obtain ⟨_, _, _, hview⟩ :=
      applyCalls_frame calls (cloneS h b).1 (cloneS h b).2 b cc cb hd2
    rw [hview, cview]
  · obtain ⟨_, _, _, hview⟩ :=
      applyCalls_frame calls2 (cloneS h b).1 b (cloneS h b).2 cb cc cdisj
    exact hview

/-- A one-predicate source builder over a heap whose backing array has
spare capacity (so an in-place append is exercised). -/
def c3WitnessHeap : Heap :=
  [⟨[Cell.cellPred { column := "x", operator := "=", value := .vint 1, logic := "AND" }], 2⟩]

/-- The builder owning the slice over `c3WitnessHeap`. -/
def c3WitnessBuilder : BuilderS :=
  { db := 0, table := "t", selectCols := .nilS, whereConds := .ref 0 1, joins := .nilS,
    orderBy := .nilS, groupBy := .nilS, having := .nilS, limitVal := 0, offsetVal := 0,
    args := .nilS, tx := none }

theorem C3_witness :
    validB c3WitnessHeap c3WitnessBuilder = true ∧
    (((cloneS c3WitnessHeap c3WitnessBuilder).2.db = c3WitnessBuilder.db ∧
      (cloneS c3WitnessHeap c3WitnessBuilder).2.tx = c3WitnessBuilder.tx) ∧
     viewB (applyCalls (cloneS c3WitnessHeap c3WitnessBuilder).1
         (cloneS c3WitnessHeap c3WitnessBuilder).2
         [ConfigCall.whereC "y" "=" (GoVal.vint 2)]).1 c3WitnessBuilder
       = viewB c3WitnessHeap c3WitnessBuilder ∧
     viewB (applyCalls (cloneS c3WitnessHeap c3WitnessBuilder).1 c3WitnessBuilder
         [ConfigCall.whereC "z" ">" (GoVal.vint 3)]).1
         (cloneS c3WitnessHeap c3WitnessBuilder).2
       = viewB (cloneS c3WitnessHeap c3WitnessBuilder).1
           (cloneS c3WitnessHeap c3WitnessBuilder).2) :=
  ⟨by decide, C3_clone_independence c3WitnessHeap c3WitnessBuilder
     [ConfigCall.whereC "y" "=" (GoVal.vint 2)]
     [ConfigCall.whereC "z" ">" (GoVal.vint 3)] (by decide)⟩
